import Mathlib

/-!
Verification development for the grouping and deduplication engine of the
groundmotion repository (src/gmprocess/streamcollection.py and
src/gmprocess/stationtrace.py).

Conventions of the shallow embedding:

* A `Trace` is the read-only record view of a `StationTrace`: the identity
  codes, coordinates, timing and preference attributes consumed by the
  engine, together with the mutable `parameters` annotation store and the
  `stats.tag` slot that `gather_stream_parameters` stamps onto traces.
  Coordinates and sampling rates are rationals (the engine only compares
  them; it performs no float arithmetic of its own), `starttime` is an
  integer number of seconds with `0` the `UTCDateTime(0)` epoch sentinel.
* The geodesic distance `gps2dist_azimuth` is an external obspy routine;
  it is abstracted as an explicit function argument `dist` taking the two
  latitude/longitude pairs and returning meters.
* Python dictionaries keyed by strings or tuples are association lists
  with overwrite-on-assignment (`dictInsert`) and first-match lookup
  (`dictFind`).
* Fallible Python code (KeyError from `REV_PROCESS_LEVELS[...]`,
  ValueError from `list.index`, implicit fall-through returning `None`)
  is modelled with `Option` / `Except`.
-/

/-- Trace record: the fields of a `StationTrace` (stationtrace.py) read or
written by the grouping/dedup engine.  `tag` models the `stats.tag` slot
stamped by `gather_stream_parameters` and `parameters` the annotation
store written by `StationTrace.setParameter`. -/
structure Trace where
  network : String
  station : String
  channel : String
  location : String
  latitude : ℚ
  longitude : ℚ
  starttime : ℤ
  npts : ℕ
  sampling_rate : ℚ
  process_level : String
  source_format : String
  structure_type : String
  tag : String
  parameters : List (String × String)
  deriving DecidableEq, Inhabited

/-- Process-level reverse map of stationtrace.py: long name to V-code.
Python dict access raises `KeyError` on a missing key, so lookups below
return `Option`. -/
def REV_PROCESS_LEVELS : List (String × String) :=
  [("raw counts", "V0"),
   ("uncorrected physical units", "V1"),
   ("corrected physical units", "V2"),
   ("derived time series", "V3")]

/-- Networks using the location code to distinguish co-installed sensors
(streamcollection.py line 31). -/
def NETWORKS_USING_LOCATION : List String := ["RE"]

/-- Substructure keywords whose presence in `structure_type` makes a trace
non-free-field (`StationTrace.free_field`, stationtrace.py). -/
def NON_FREE_TYPES : List String :=
  ["building", "bridge", "dam", "borehole", "hole", "crest", "toe",
   "foundation", "body", "roof", "floor"]

/-- Prefix test on character lists (executable helper for the substring
search below). -/
def listPrefixB : List Char → List Char → Bool
  | [], _ => true
  | _ :: _, [] => false
  | a :: xs, b :: ys => if a = b then listPrefixB xs ys else false

/-- Substring test on character lists: does the first list occur
contiguously inside the second one (the semantics of `re.search` with a
literal pattern)? -/
def listInfixB (xs : List Char) : List Char → Bool
  | [] => decide (xs = [])
  | y :: ys => listPrefixB xs (y :: ys) || listInfixB xs ys

/-- Character-level lower-casing of a string (Python `str.lower`), kept at
the `List Char` level so that concrete evaluation reduces. -/
def lowerData (s : String) : List Char := s.data.map Char.toLower

/-- Free-field classification of `StationTrace.free_field`: true unless one
of the non-free keywords occurs as a substring (`re.search`) of the
lower-cased structure type. -/
def free_field (t : Trace) : Bool :=
  NON_FREE_TYPES.all
    (fun f => ! listInfixB f.data (lowerData t.structure_type))

/-- Obspy trace id "NET.STA.LOC.CHA", modelled componentwise as the tuple
of the four identity codes. -/
def trace_id (t : Trace) : String × String × String × String :=
  (t.network, t.station, t.location, t.channel)

/-- Association-list lookup with Python dict semantics (`d[k]` returning
the stored value, `none` when the key is missing). -/
def dictFind {κ ν : Type} [DecidableEq κ] : List (κ × ν) → κ → Option ν
  | [], _ => none
  | (k1, v) :: rest, k => if k1 = k then some v else dictFind rest k

/-- Association-list assignment with Python dict semantics: overwrite the
entry when the key is present, append otherwise. -/
def dictInsert {κ ν : Type} [DecidableEq κ] : List (κ × ν) → κ → ν → List (κ × ν)
  | [], k, v => [(k, v)]
  | (k1, v1) :: rest, k, v =>
    if k1 = k then (k, v) :: rest else (k1, v1) :: dictInsert rest k v

/-- Python `list.index`: position of the first occurrence, `none` when the
element is absent (where Python raises `ValueError`). -/
def pyIndex : List String → String → Option ℕ
  | [], _ => none
  | x :: rest, s => if x = s then some 0 else (pyIndex rest s).map (· + 1)

/-- Duplicate detector `are_duplicates(tr1, tr2, max_dist_tolerance)` of
streamcollection.py lines 693-725.  The external geodesic distance
`gps2dist_azimuth(lat1, lon1, lat2, lon2)[0]` is abstracted as the
argument `dist`. -/
def are_duplicates (dist : ℚ → ℚ → ℚ → ℚ → ℚ) (tol : ℚ) (tr1 tr2 : Trace) : Bool :=
  if trace_id tr1 = trace_id tr2 then
    true
  else
    let distance := dist tr1.latitude tr1.longitude tr2.latitude tr2.longitude
    if tr1.station = tr2.station ∧ tr1.location = tr2.location ∧
        tr1.channel = tr2.channel ∧ distance < tol then
      true
    else
      false

/-- Preference resolver `choose_preferred` of streamcollection.py lines
728-788.  A failed process-level lookup (Python `KeyError` from the
`REV_PROCESS_LEVELS` dict or `ValueError` from `list.index`) is `none`;
`none` is also the value of the implicit Python fall-through at the end of
the function when the process-level ranks tie and the two source formats
are not both listed in `format_preference` (the source has no `else`
branch there, so the Python function returns `None`). -/
def choose_preferred (tr1 tr2 : Trace) (plp fp : List String) : Option Trace :=
  match dictFind REV_PROCESS_LEVELS tr1.process_level with
  | none => none
  | some l1 =>
    match dictFind REV_PROCESS_LEVELS tr2.process_level with
    | none => none
    | some l2 =>
      match pyIndex plp l1 with
      | none => none
      | some tr1_pref =>
        match pyIndex plp l2 with
        | none => none
        | some tr2_pref =>
          if tr1_pref < tr2_pref then some tr1
          else if tr2_pref < tr1_pref then some tr2
          else
            if tr1.source_format ∈ fp ∧ tr2.source_format ∈ fp then
              match pyIndex fp tr1.source_format with
              | none => none
              | some tr1_form_pref =>
                match pyIndex fp tr2.source_format with
                | none => none
                | some tr2_form_pref =>
                  if tr1_form_pref < tr2_form_pref then some tr1
                  else if tr2_form_pref < tr1_form_pref then some tr2
                  else
                    if tr1.starttime = 0 ∧ tr2.starttime ≠ 0 then some tr2
                    else if tr1.starttime ≠ 0 ∧ tr2.starttime = 0 then some tr1
                    else
                      if tr2.npts < tr1.npts then some tr1
                      else if tr1.npts < tr2.npts then some tr2
                      else
                        if tr1.sampling_rate < tr2.sampling_rate then some tr2
                        else some tr1
            else none

/-- Baseline concrete trace used to build test fixtures. -/
def tBase : Trace :=
  { network := "NC", station := "A", channel := "HNZ", location := "",
    latitude := 0, longitude := 0, starttime := 1, npts := 10,
    sampling_rate := 100, process_level := "raw counts",
    source_format := "cosmos", structure_type := "", tag := "",
    parameters := [] }

lemma pyIndex_of_mem {l : List String} {s : String} (h : s ∈ l) :
    ∃ i, pyIndex l s = some i := by
  induction l with
  | nil => cases h
  | cons x rest ih =>
    by_cases hx : x = s
    · exact ⟨0, by simp [pyIndex, hx]⟩
    · have h1 : s ∈ rest := by
        rcases List.mem_cons.mp h with h2 | h2
        · exact absurd h2.symm hx
        · exact h2
      rcases ih h1 with ⟨i, hi⟩
      exact ⟨i + 1, by simp [pyIndex, hx, hi]⟩

/-- C3: the duplicate detector returns true whenever the four-part identity
tuples coincide, regardless of coordinates; otherwise it returns true
exactly when station, location and channel codes all match and the
distance reported by the geodesic routine is strictly below the tolerance.
The function is pure (its embedding is a function with no state). -/
theorem are_duplicates_spec (dist : ℚ → ℚ → ℚ → ℚ → ℚ) (tol : ℚ) (a b : Trace) :
    (trace_id a = trace_id b → are_duplicates dist tol a b = true) ∧
    (trace_id a ≠ trace_id b →
      (are_duplicates dist tol a b = true ↔
        (a.station = b.station ∧ a.location = b.location ∧ a.channel = b.channel ∧
          dist a.latitude a.longitude b.latitude b.longitude < tol))) := by
  constructor
  · intro h
    simp [are_duplicates, h]
  · intro h
    simp only [are_duplicates, if_neg h]
    split
    · simp_all
    · simp_all

/-- Witness for C3 at a concrete input. -/
theorem are_duplicates_spec_witness :
    are_duplicates (fun _ _ _ _ => 99) 5 tBase tBase = true :=
  (are_duplicates_spec (fun _ _ _ _ => 99) 5 tBase tBase).1 rfl

/-- Fixture for C2: process level tied with `tBase`, source format absent
from the format preference list used below. -/
def tC2 : Trace := { tBase with source_format := "dmg", channel := "HNE" }

/-- C2 (code bug): both process levels appear in the process-level
preference list, yet `choose_preferred` returns neither argument: the
Python source has no `else` for the case where the process-level ranks tie
and the two source formats are not both in `format_preference`, so the
function falls through and returns `None`, contradicting its own docstring
("Returns: The preferred trace (StationTrace).") and the spec contract. -/
theorem choose_preferred_fall_through :
    dictFind REV_PROCESS_LEVELS tBase.process_level = some "V0" ∧
    dictFind REV_PROCESS_LEVELS tC2.process_level = some "V0" ∧
    "V0" ∈ ["V0"] ∧ tC2.source_format ∉ ["cosmos"] ∧
    choose_preferred tBase tC2 ["V0"] ["cosmos"] = none := by decide

/-- C6: the tie-break cascade after a process-level tie and a format tie:
an epoch-zero start time loses to a nonzero one; with no sentinel
discrimination the larger sample count wins; with equal sample counts the
higher sampling rate wins, and on a genuine full tie the first argument is
returned. -/
theorem choose_preferred_tiebreak (a b : Trace) (plp fp : List String)
    (l1 l2 : String) (p f1 f2 : ℕ)
    (h1 : dictFind REV_PROCESS_LEVELS a.process_level = some l1)
    (h2 : dictFind REV_PROCESS_LEVELS b.process_level = some l2)
    (hp1 : pyIndex plp l1 = some p) (hp2 : pyIndex plp l2 = some p)
    (ha : a.source_format ∈ fp) (hb : b.source_format ∈ fp)
    (hf1 : pyIndex fp a.source_format = some f1)
    (hf2 : pyIndex fp b.source_format = some f2)
    (hf : f1 = f2) :
    ((a.starttime = 0 ∧ b.starttime ≠ 0) → choose_preferred a b plp fp = some b) ∧
    ((a.starttime ≠ 0 ∧ b.starttime = 0) → choose_preferred a b plp fp = some a) ∧
    (¬(a.starttime = 0 ∧ b.starttime ≠ 0) → ¬(a.starttime ≠ 0 ∧ b.starttime = 0) →
      ((b.npts < a.npts → choose_preferred a b plp fp = some a) ∧
       (a.npts < b.npts → choose_preferred a b plp fp = some b) ∧
       (a.npts = b.npts →
         ((a.sampling_rate < b.sampling_rate → choose_preferred a b plp fp = some b) ∧
          (¬ a.sampling_rate < b.sampling_rate →
            choose_preferred a b plp fp = some a))))) := by
  subst hf
  have key : choose_preferred a b plp fp =
      (if a.starttime = 0 ∧ b.starttime ≠ 0 then some b
       else if a.starttime ≠ 0 ∧ b.starttime = 0 then some a
       else if b.npts < a.npts then some a
       else if a.npts < b.npts then some b
       else if a.sampling_rate < b.sampling_rate then some b
       else some a) := by
    simp [choose_preferred, h1, h2, hp1, hp2, hf1, hf2, ha, hb]
  rw [key]
  refine ⟨?_, ?_, ?_⟩
  · intro h
    simp [h]
  · intro h
    simp [h.1, h.2]
  · intro hs1 hs2
    refine ⟨?_, ?_, ?_⟩
    · intro h
      simp [hs1, hs2, h, Nat.lt_asymm h]
    · intro h
      simp [hs1, hs2, h, Nat.lt_asymm h]
    · intro h
      constructor
      · intro hsr
        simp [hs1, hs2, h, hsr]
      · intro hsr
        simp [hs1, hs2, h, hsr]

/-- Fixture for the C6 witness: tied with `tBase` up to sample count. -/
def tC6 : Trace := { tBase with channel := "HNE", npts := 12 }

/-- Witness for C6 at a concrete input: the larger sample count wins after
a full process-level, format and start-time tie. -/
theorem choose_preferred_tiebreak_witness :
    choose_preferred tBase tC6 ["V0"] ["cosmos"] = some tC6 :=
  ((choose_preferred_tiebreak tBase tC6 ["V0"] ["cosmos"] "V0" "V0" 0 0 0
      (by decide) (by decide) (by decide) (by decide) (by decide) (by decide)
      (by decide) (by decide) rfl).2.2
    (by decide) (by decide)).2.1 (by decide)

/-- Fixture for the C7 counterexample: distinct from `tBase` (different
channel) but tied on every key of the preference cascade. -/
def tC7 : Trace := { tBase with channel := "HNE" }

/-- Counterexample for C7: two distinct traces tied on every cascade key;
each argument order returns its own first argument, so swapping the
arguments changes which underlying trace is chosen. -/
theorem choose_preferred_swap_cex :
    tBase ≠ tC7 ∧
    choose_preferred tBase tC7 ["V0"] ["cosmos"] = some tBase ∧
    choose_preferred tC7 tBase ["V0"] ["cosmos"] = some tC7 := by decide

/-- C7 (amended): swapping the argument order of `choose_preferred` does
not change the chosen trace provided both process levels resolve and rank
in the process-level preference list, both source formats appear in the
format preference list, and at least one cascade key discriminates between
the two traces (process-level rank, format rank, epoch-sentinel status,
sample count, or sampling rate).  On a genuine full tie each call returns
its own first argument, so the restriction is necessary. -/
theorem choose_preferred_symm (a b : Trace) (plp fp : List String)
    (l1 l2 : String) (p1 p2 : ℕ)
    (h1 : dictFind REV_PROCESS_LEVELS a.process_level = some l1)
    (h2 : dictFind REV_PROCESS_LEVELS b.process_level = some l2)
    (hp1 : pyIndex plp l1 = some p1) (hp2 : pyIndex plp l2 = some p2)
    (hfa : a.source_format ∈ fp) (hfb : b.source_format ∈ fp)
    (hdisc : p1 ≠ p2 ∨ pyIndex fp a.source_format ≠ pyIndex fp b.source_format ∨
      ((a.starttime = 0 ∧ b.starttime ≠ 0) ∨ (a.starttime ≠ 0 ∧ b.starttime = 0)) ∨
      a.npts ≠ b.npts ∨ a.sampling_rate ≠ b.sampling_rate) :
    choose_preferred a b plp fp = choose_preferred b a plp fp := by
  rcases pyIndex_of_mem hfa with ⟨f1, hf1⟩
  rcases pyIndex_of_mem hfb with ⟨f2, hf2⟩
  rcases Nat.lt_trichotomy p1 p2 with hp | hp | hp
  · simp [choose_preferred, h1, h2, hp1, hp2, hp, Nat.lt_asymm hp]
  · subst hp
    rcases Nat.lt_trichotomy f1 f2 with hf | hf | hf
    · simp [choose_preferred, h1, h2, hp1, hp2, hf1, hf2, hfa, hfb, hf,
        Nat.lt_asymm hf]
    · subst hf
      by_cases sa : a.starttime = 0 <;> by_cases sb : b.starttime = 0
      · rcases Nat.lt_trichotomy a.npts b.npts with hn | hn | hn
        · simp [choose_preferred, h1, h2, hp1, hp2, hf1, hf2, hfa, hfb, sa, sb,
            hn, Nat.lt_asymm hn]
        · rcases hdisc with hd | hd | hd | hd | hd
          · exact absurd rfl hd
          · rw [hf1, hf2] at hd
            exact absurd rfl hd
          · rcases hd with ⟨_, hd2⟩ | ⟨hd1, _⟩
            · exact absurd sb hd2
            · exact absurd sa hd1
          · exact absurd hn hd
          · rcases lt_or_gt_of_ne hd with hs | hs
            · simp [choose_preferred, h1, h2, hp1, hp2, hf1, hf2, hfa, hfb,
                sa, sb, hn, hs, lt_asymm hs]
            · simp [choose_preferred, h1, h2, hp1, hp2, hf1, hf2, hfa, hfb,
                sa, sb, hn, hs, lt_asymm hs]
        · simp [choose_preferred, h1, h2, hp1, hp2, hf1, hf2, hfa, hfb, sa, sb,
            hn, Nat.lt_asymm hn]
      · simp [choose_preferred, h1, h2, hp1, hp2, hf1, hf2, hfa, hfb, sa, sb]
      · simp [choose_preferred, h1, h2, hp1, hp2, hf1, hf2, hfa, hfb, sa, sb]
      · rcases Nat.lt_trichotomy a.npts b.npts with hn | hn | hn
        · simp [choose_preferred, h1, h2, hp1, hp2, hf1, hf2, hfa, hfb, sa, sb,
            hn, Nat.lt_asymm hn]
        · rcases hdisc with hd | hd | hd | hd | hd
          · exact absurd rfl hd
          · rw [hf1, hf2] at hd
            exact absurd rfl hd
          · rcases hd with ⟨hd1, _⟩ | ⟨_, hd2⟩
            · exact absurd hd1 sa
            · exact absurd hd2 sb
          · exact absurd hn hd
          · rcases lt_or_gt_of_ne hd with hs | hs
            · simp [choose_preferred, h1, h2, hp1, hp2, hf1, hf2, hfa, hfb,
                sa, sb, hn, hs, lt_asymm hs]
            · simp [choose_preferred, h1, h2, hp1, hp2, hf1, hf2, hfa, hfb,
                sa, sb, hn, hs, lt_asymm hs]
        · simp [choose_preferred, h1, h2, hp1, hp2, hf1, hf2, hfa, hfb, sa, sb,
            hn, Nat.lt_asymm hn]
    · simp [choose_preferred, h1, h2, hp1, hp2, hf1, hf2, hfa, hfb, hf,
        Nat.lt_asymm hf]
  · simp [choose_preferred, h1, h2, hp1, hp2, hp, Nat.lt_asymm hp]

/-- Witness for the amended C7 at a concrete input (sample counts differ). -/
theorem choose_preferred_symm_witness :
    choose_preferred tBase tC6 ["V0"] ["cosmos"] =
      choose_preferred tC6 tBase ["V0"] ["cosmos"] :=
  choose_preferred_symm tBase tC6 ["V0"] ["cosmos"] "V0" "V0" 0 0
    (by decide) (by decide) (by decide) (by decide) (by decide) (by decide)
    (by decide)

section Clustering

variable {κ : Type} [DecidableEq κ]

/-- Cluster generated for an unmatched representative index `i`: the
representative followed by every other index of `univ` whose key is equal
to the key of `i` (result of the inner idx2 loop of the pairwise scan). -/
def mkCluster (key : ℕ → κ) (univ : List ℕ) (i : ℕ) : List ℕ :=
  i :: univ.filter (fun j => decide (i ≠ j) && decide (key j = key i))

/-- Matches list built by the inner idx2 loop at `idx1 = i`: the source
also re-tests `idx1 not in all_matches` inside the inner loop, so that
test is part of the filter. -/
def matchesFor (key : ℕ → κ) (univ : List ℕ) (matched : List ℕ) (i : ℕ) : List ℕ :=
  i :: univ.filter
    (fun j => decide (i ≠ j) && decide (i ∉ matched) && decide (key j = key i))

/-- Outer idx1 loop of the O(n²) pairwise clustering scan shared by
`StreamCollection.__group_by_net_sta_inst` (streamcollection.py lines
495-522) and `StreamCollection.select_colocated` (lines 157-174): iterate
over the remaining indices, skip indices already in the exclusion list
`matched`, and emit the match list of each unskipped index (the source
splits the emission into a `len > 1` branch and a singleton branch whose
extra membership test is redundant; both are kept). -/
def clGo (key : ℕ → κ) (univ : List ℕ) : List ℕ → List ℕ → List (List ℕ)
  | [], _ => []
  | i :: rest, matched =>
    if i ∈ matched then clGo key univ rest matched
    else
      if 1 < (matchesFor key univ matched i).length then
        matchesFor key univ matched i ::
          clGo key univ rest (matched ++ matchesFor key univ matched i)
      else if (matchesFor key univ matched i).headD i ∈ matched then
        clGo key univ rest matched
      else
        matchesFor key univ matched i ::
          clGo key univ rest (matched ++ matchesFor key univ matched i)

/-- Pairwise clustering of the indices `0 .. n-1` by key equality. -/
def clusters (key : ℕ → κ) (n : ℕ) : List (List ℕ) :=
  clGo key (List.range n) (List.range n) []

lemma matchesFor_eq {key : ℕ → κ} {univ matched : List ℕ} {i : ℕ}
    (h : i ∉ matched) :
    matchesFor key univ matched i = mkCluster key univ i := by
  simp [matchesFor, mkCluster, h]

lemma clGo_cons_skip {key : ℕ → κ} {univ rest matched : List ℕ} {i : ℕ}
    (h : i ∈ matched) :
    clGo key univ (i :: rest) matched = clGo key univ rest matched := by
  simp [clGo, h]

lemma clGo_cons_emit {key : ℕ → κ} {univ rest matched : List ℕ} {i : ℕ}
    (h : i ∉ matched) :
    clGo key univ (i :: rest) matched =
      mkCluster key univ i ::
        clGo key univ rest (matched ++ mkCluster key univ i) := by
  have hm := @matchesFor_eq _ _ key univ _ _ h
  have hhead : (mkCluster key univ i).head? = some i := rfl
  by_cases hl : 1 < (mkCluster key univ i).length
  · simp [clGo, h, hm, hl]
  · simp [clGo, h, hm, hl, hhead]

lemma mem_mkCluster {key : ℕ → κ} {univ : List ℕ} {i j : ℕ} :
    j ∈ mkCluster key univ i ↔ j = i ∨ (j ∈ univ ∧ i ≠ j ∧ key j = key i) := by
  simp [mkCluster]

lemma key_of_mem_mkCluster {key : ℕ → κ} {univ : List ℕ} {i j : ℕ}
    (h : j ∈ mkCluster key univ i) : key j = key i := by
  rcases mem_mkCluster.mp h with h1 | ⟨_, _, h3⟩
  · rw [h1]
  · exact h3

lemma self_mem_mkCluster {key : ℕ → κ} {univ : List ℕ} {i : ℕ} :
    i ∈ mkCluster key univ i := by
  simp [mkCluster]

lemma clGo_shape {key : ℕ → κ} {univ : List ℕ} :
    ∀ {rest matched : List ℕ} {c : List ℕ}, c ∈ clGo key univ rest matched →
      ∃ i, i ∈ rest ∧ c = mkCluster key univ i := by
  intro rest
  induction rest with
  | nil => intro matched c hc; simp [clGo] at hc
  | cons i rest ih =>
    intro matched c hc
    by_cases h : i ∈ matched
    · rw [clGo_cons_skip h] at hc
      rcases ih hc with ⟨i1, hi1, hc1⟩
      exact ⟨i1, List.mem_cons_of_mem _ hi1, hc1⟩
    · rw [clGo_cons_emit h] at hc
      rcases List.mem_cons.mp hc with hc1 | hc1
      · exact ⟨i, List.mem_cons_self _ _, hc1⟩
      · rcases ih hc1 with ⟨i1, hi1, hc2⟩
        exact ⟨i1, List.mem_cons_of_mem _ hi1, hc2⟩

lemma clGo_cover {key : ℕ → κ} {univ : List ℕ} :
    ∀ {rest matched : List ℕ} {i : ℕ}, i ∈ rest →
      i ∈ matched ∨ ∃ c ∈ clGo key univ rest matched, i ∈ c := by
  intro rest
  induction rest with
  | nil => intro matched i hi; cases hi
  | cons j rest ih =>
    intro matched i hi
    by_cases hj : j ∈ matched
    · rw [clGo_cons_skip hj]
      rcases List.mem_cons.mp hi with h1 | h1
      · exact Or.inl (h1 ▸ hj)
      · exact ih h1
    · rw [clGo_cons_emit hj]
      rcases List.mem_cons.mp hi with h1 | h1
      · exact Or.inr ⟨mkCluster key univ j, List.mem_cons_self _ _,
          h1 ▸ self_mem_mkCluster⟩
      · rcases @ih (matched ++ mkCluster key univ j) i h1 with h2 | h2
        · rcases List.mem_append.mp h2 with h3 | h3
          · exact Or.inl h3
          · exact Or.inr ⟨mkCluster key univ j, List.mem_cons_self _ _, h3⟩
        · rcases h2 with ⟨c, hc, hic⟩
          exact Or.inr ⟨c, List.mem_cons_of_mem _ hc, hic⟩

/-- Saturation invariant for the exclusion list: it is closed under key
equality within `univ`. -/
def KeySat (key : ℕ → κ) (univ matched : List ℕ) : Prop :=
  ∀ j ∈ matched, ∀ x ∈ univ, key x = key j → x ∈ matched

lemma keySat_nil {key : ℕ → κ} {univ : List ℕ} : KeySat key univ [] := by
  intro j hj
  cases hj

lemma keySat_append {key : ℕ → κ} {univ matched : List ℕ} {i : ℕ}
    (hs : KeySat key univ matched) (hi : i ∈ univ) :
    KeySat key univ (matched ++ mkCluster key univ i) := by
  intro j hj x hx hk
  rcases List.mem_append.mp hj with hj1 | hj1
  · exact List.mem_append.mpr (Or.inl (hs j hj1 x hx hk))
  · have hkey : key x = key i := by
      rw [hk, key_of_mem_mkCluster hj1]
    by_cases hxi : x = i
    · exact List.mem_append.mpr (Or.inr (hxi ▸ self_mem_mkCluster))
    · exact List.mem_append.mpr
        (Or.inr (mem_mkCluster.mpr (Or.inr ⟨hx, fun h => hxi h.symm, hkey⟩)))

lemma clGo_avoid {key : ℕ → κ} {univ : List ℕ} :
    ∀ {rest matched : List ℕ}, KeySat key univ matched →
      (∀ y ∈ rest, y ∈ univ) →
      ∀ c ∈ clGo key univ rest matched, ∀ x ∈ c, x ∉ matched := by
  intro rest
  induction rest with
  | nil => intro matched _ _ c hc; simp [clGo] at hc
  | cons i rest ih =>
    intro matched hs hsub c hc x hx
    have hiu : i ∈ univ := hsub i (List.mem_cons_self _ _)
    have hsub1 : ∀ y ∈ rest, y ∈ univ := fun y hy => hsub y (List.mem_cons_of_mem _ hy)
    by_cases h : i ∈ matched
    · rw [clGo_cons_skip h] at hc
      exact ih hs hsub1 c hc x hx
    · rw [clGo_cons_emit h] at hc
      rcases List.mem_cons.mp hc with hc1 | hc1
      · subst hc1
        intro hxm
        exact h (hs x hxm i hiu (key_of_mem_mkCluster hx).symm)
      · intro hxm
        exact ih (keySat_append hs hiu) hsub1 c hc1 x hx
          (List.mem_append.mpr (Or.inl hxm))

lemma clGo_pairwise_disjoint {key : ℕ → κ} {univ : List ℕ} :
    ∀ {rest matched : List ℕ}, KeySat key univ matched →
      (∀ y ∈ rest, y ∈ univ) →
      List.Pairwise (fun c1 c2 => ∀ x ∈ c1, x ∉ c2) (clGo key univ rest matched) := by
  intro rest
  induction rest with
  | nil => intro matched _ _; simp [clGo]
  | cons i rest ih =>
    intro matched hs hsub
    have hiu : i ∈ univ := hsub i (List.mem_cons_self _ _)
    have hsub1 : ∀ y ∈ rest, y ∈ univ := fun y hy => hsub y (List.mem_cons_of_mem _ hy)
    by_cases h : i ∈ matched
    · rw [clGo_cons_skip h]
      exact ih hs hsub1
    · rw [clGo_cons_emit h]
      refine List.pairwise_cons.mpr ⟨?_, ih (keySat_append hs hiu) hsub1⟩
      intro c hc x hx
      intro hxc
      exact clGo_avoid (keySat_append hs hiu) hsub1 c hc x hxc
        (List.mem_append.mpr (Or.inr hx))

lemma eq_of_mem_pairwise_disjoint {α : Type} {L : List (List α)} {c1 c2 : List α}
    {x : α} (hp : List.Pairwise (fun a b => ∀ y ∈ a, y ∉ b) L)
    (h1 : c1 ∈ L) (h2 : c2 ∈ L) (hx1 : x ∈ c1) (hx2 : x ∈ c2) : c1 = c2 := by
  induction L with
  | nil => cases h1
  | cons c L ih =>
    rcases List.pairwise_cons.mp hp with ⟨hd, hp1⟩
    rcases List.mem_cons.mp h1 with e1 | e1 <;> rcases List.mem_cons.mp h2 with e2 | e2
    · rw [e1, e2]
    · exact absurd hx2 (hd c2 e2 x (e1 ▸ hx1))
    · exact absurd hx1 (hd c1 e1 x (e2 ▸ hx2))
    · exact ih hp1 e1 e2

lemma clusters_shape {key : ℕ → κ} {n : ℕ} {c : List ℕ}
    (hc : c ∈ clusters key n) : ∃ i, i < n ∧ c = mkCluster key (List.range n) i := by
  rcases clGo_shape hc with ⟨i, hi, hc1⟩
  exact ⟨i, List.mem_range.mp hi, hc1⟩

lemma clusters_cover {key : ℕ → κ} {n i : ℕ} (hi : i < n) :
    ∃ c ∈ clusters key n, i ∈ c := by
  rcases @clGo_cover _ _ key (List.range n) (List.range n) [] i
      (List.mem_range.mpr hi) with h | h
  · cases h
  · exact h

lemma clusters_key_eq {key : ℕ → κ} {n : ℕ} {c : List ℕ} {i j : ℕ}
    (hc : c ∈ clusters key n) (hi : i ∈ c) (hj : j ∈ c) : key i = key j := by
  rcases clusters_shape hc with ⟨i0, _, rfl⟩
  rw [key_of_mem_mkCluster hi, key_of_mem_mkCluster hj]

lemma clusters_mem_lt {key : ℕ → κ} {n : ℕ} {c : List ℕ} {i : ℕ}
    (hc : c ∈ clusters key n) (hi : i ∈ c) : i < n := by
  rcases clusters_shape hc with ⟨i0, hi0, rfl⟩
  rcases mem_mkCluster.mp hi with h | ⟨h, _, _⟩
  · exact h ▸ hi0
  · exact List.mem_range.mp h

lemma clusters_joint {key : ℕ → κ} {n i j : ℕ} (hi : i < n) (hj : j < n)
    (hk : key i = key j) : ∃ c ∈ clusters key n, i ∈ c ∧ j ∈ c := by
  rcases @clusters_cover _ _ key _ _ hi with ⟨c, hc, hic⟩
  rcases clusters_shape hc with ⟨i0, _, rfl⟩
  refine ⟨mkCluster key (List.range n) i0, hc, hic, ?_⟩
  have hkey : key j = key i0 := by
    rw [← hk, key_of_mem_mkCluster hic]
  by_cases hji : j = i0
  · exact hji ▸ self_mem_mkCluster
  · exact mem_mkCluster.mpr
      (Or.inr ⟨List.mem_range.mpr hj, fun h => hji h.symm, hkey⟩)

lemma clusters_disjoint {key : ℕ → κ} {n : ℕ} {c1 c2 : List ℕ} {x : ℕ}
    (h1 : c1 ∈ clusters key n) (h2 : c2 ∈ clusters key n)
    (hx1 : x ∈ c1) (hx2 : x ∈ c2) : c1 = c2 :=
  eq_of_mem_pairwise_disjoint
    (@clGo_pairwise_disjoint _ _ key (List.range n) (List.range n) []
      keySat_nil (fun _ hy => hy)) h1 h2 hx1 hx2

lemma clusters_nonempty {key : ℕ → κ} {n : ℕ} {c : List ℕ}
    (hc : c ∈ clusters key n) : c ≠ [] := by
  rcases clusters_shape hc with ⟨i0, _, rfl⟩
  simp [mkCluster]

end Clustering

/-- Insertion step of the location dictionary of `split_station`
(`streams_dict[trace.stats.location] += trace`, new key appended at the
end as for a Python dict preserving insertion order). -/
def locInsert : List (String × List ℕ) → String → ℕ → List (String × List ℕ)
  | [], loc, i => [(loc, [i])]
  | (l, g) :: rest, loc, i =>
    if l = loc then (l, g ++ [i]) :: rest else (l, g) :: locInsert rest loc i

/-- Location dictionary built by `split_station` over a cluster of trace
indices, with `locOf i` the location code of trace `i`. -/
def locDict (locOf : ℕ → String) (c : List ℕ) : List (String × List ℕ) :=
  c.foldl (fun acc i => locInsert acc (locOf i) i) []

/-- Location-split rule of `split_station` (streamcollection.py lines
678-690) at the level of trace indices: a cluster whose first trace
belongs to a network of the exception list is partitioned by location
code in insertion order; otherwise the whole cluster is a single stream.
The Python source indexes `grouped_trace_list[0]` (an `IndexError` on an
empty list); clusters are never empty and the empty case yields no
streams. -/
def split_station_idx (locOf netOf : ℕ → String) : List ℕ → List (List ℕ)
  | [] => []
  | i0 :: rest =>
    if netOf i0 ∈ NETWORKS_USING_LOCATION then
      (locDict locOf (i0 :: rest)).map Prod.snd
    else [i0 :: rest]

lemma locInsert_mem_snd {acc : List (String × List ℕ)} {loc : String} {i : ℕ}
    {e : String × List ℕ} (he : e ∈ locInsert acc loc i) :
    ∀ j ∈ e.2, (∃ e0 ∈ acc, j ∈ e0.2 ∧ e0.1 = e.1) ∨ (j = i ∧ e.1 = loc) := by
  induction acc with
  | nil =>
    intro j hj
    simp [locInsert] at he
    subst he
    simp at hj
    exact Or.inr ⟨hj, rfl⟩
  | cons a rest ih =>
    intro j hj
    rcases a with ⟨l, g⟩
    by_cases hl : l = loc
    · subst hl
      simp [locInsert] at he
      rcases he with he | he
      · subst he
        rcases List.mem_append.mp hj with h1 | h1
        · exact Or.inl ⟨(l, g), List.mem_cons_self _ _, h1, rfl⟩
        · simp at h1
          exact Or.inr ⟨h1, rfl⟩
      · exact Or.inl ⟨e, List.mem_cons_of_mem _ he, hj, rfl⟩
    · simp [locInsert, hl] at he
      rcases he with he | he
      · subst he
        exact Or.inl ⟨(l, g), List.mem_cons_self _ _, hj, rfl⟩
      · rcases ih he j hj with ⟨e0, he0, hje0, hke⟩ | h1
        · exact Or.inl ⟨e0, List.mem_cons_of_mem _ he0, hje0, hke⟩
        · exact Or.inr h1

lemma locInsert_pres {acc : List (String × List ℕ)} {loc : String} {i : ℕ}
    {e0 : String × List ℕ} (h : e0 ∈ acc) :
    ∀ j ∈ e0.2, ∃ e ∈ locInsert acc loc i, e.1 = e0.1 ∧ j ∈ e.2 := by
  induction acc with
  | nil => cases h
  | cons a rest ih =>
    intro j hj
    rcases a with ⟨l, g⟩
    by_cases hl : l = loc
    · subst hl
      rcases List.mem_cons.mp h with h1 | h1
      · refine ⟨(l, g ++ [i]), ?_, ?_, ?_⟩
        · simp [locInsert]
        · rw [h1]
        · rw [h1] at hj
          exact List.mem_append.mpr (Or.inl hj)
      · exact ⟨e0, by simp [locInsert, List.mem_cons_of_mem _ h1], rfl, hj⟩
    · rcases List.mem_cons.mp h with h1 | h1
      · exact ⟨(l, g), by simp [locInsert, hl], by rw [h1], h1 ▸ hj⟩
      · rcases ih h1 j hj with ⟨e, he, hk, hje⟩
        exact ⟨e, by simp [locInsert, hl, Or.inr he], hk, hje⟩

lemma locInsert_self {acc : List (String × List ℕ)} {loc : String} {i : ℕ} :
    ∃ e ∈ locInsert acc loc i, e.1 = loc ∧ i ∈ e.2 := by
  induction acc with
  | nil => exact ⟨(loc, [i]), by simp [locInsert], rfl, by simp⟩
  | cons a rest ih =>
    rcases a with ⟨l, g⟩
    by_cases hl : l = loc
    · subst hl
      exact ⟨(l, g ++ [i]), by simp [locInsert], rfl, by simp⟩
    · rcases ih with ⟨e, he, hk, hie⟩
      exact ⟨e, by simp [locInsert, hl, Or.inr he], hk, hie⟩

lemma locInsert_keys {acc : List (String × List ℕ)} {loc : String} {i : ℕ}
    {e : String × List ℕ} (he : e ∈ locInsert acc loc i) :
    e.1 = loc ∨ ∃ e0 ∈ acc, e.1 = e0.1 := by
  induction acc with
  | nil =>
    simp [locInsert] at he
    subst he
    exact Or.inl rfl
  | cons a rest ih =>
    rcases a with ⟨l, g⟩
    by_cases hl : l = loc
    · subst hl
      simp [locInsert] at he
      rcases he with he | he
      · exact Or.inl (by rw [he])
      · exact Or.inr ⟨e, List.mem_cons_of_mem _ he, rfl⟩
    · simp [locInsert, hl] at he
      rcases he with he | he
      · exact Or.inr ⟨(l, g), List.mem_cons_self _ _, by rw [he]⟩
      · rcases ih he with h1 | ⟨e0, he0, hk⟩
        · exact Or.inl h1
        · exact Or.inr ⟨e0, List.mem_cons_of_mem _ he0, hk⟩

lemma locInsert_pairwise {acc : List (String × List ℕ)} {loc : String} {i : ℕ}
    (hp : acc.Pairwise (fun a b => a.1 ≠ b.1)) :
    (locInsert acc loc i).Pairwise (fun a b => a.1 ≠ b.1) := by
  induction acc with
  | nil => simp [locInsert]
  | cons a rest ih =>
    rcases a with ⟨l, g⟩
    rcases List.pairwise_cons.mp hp with ⟨hd, hp1⟩
    by_cases hl : l = loc
    · subst hl
      simp only [locInsert, if_pos rfl]
      exact List.pairwise_cons.mpr ⟨hd, hp1⟩
    · simp only [locInsert, if_neg hl]
      refine List.pairwise_cons.mpr ⟨?_, ih hp1⟩
      intro e he
      rcases locInsert_keys he with h1 | ⟨e0, he0, hk⟩
      · rw [h1]
        exact hl
      · rw [hk]
        exact hd e0 he0

lemma locInsert_nonempty {acc : List (String × List ℕ)} {loc : String} {i : ℕ}
    (h : ∀ e ∈ acc, e.2 ≠ []) :
    ∀ e ∈ locInsert acc loc i, e.2 ≠ [] := by
  induction acc with
  | nil =>
    intro e he
    simp [locInsert] at he
    subst he
    simp
  | cons a rest ih =>
    intro e he
    rcases a with ⟨l, g⟩
    by_cases hl : l = loc
    · subst hl
      simp [locInsert] at he
      rcases he with he | he
      · rw [he]
        simp
      · exact h e (List.mem_cons_of_mem _ he)
    · simp [locInsert, hl] at he
      rcases he with he | he
      · rw [he]
        exact h (l, g) (List.mem_cons_self _ _)
      · exact ih (fun e1 he1 => h e1 (List.mem_cons_of_mem _ he1)) e he

lemma locDict_go_snd {locOf : ℕ → String} {P : ℕ → Prop} :
    ∀ (c : List ℕ) (acc : List (String × List ℕ)),
      (∀ e ∈ acc, ∀ j ∈ e.2, locOf j = e.1 ∧ P j) → (∀ i ∈ c, P i) →
      ∀ e ∈ c.foldl (fun acc i => locInsert acc (locOf i) i) acc,
        ∀ j ∈ e.2, locOf j = e.1 ∧ P j := by
  intro c
  induction c with
  | nil => intro acc hacc _ e he; exact hacc e he
  | cons i c ih =>
    intro acc hacc hc e he j hj
    have hPi : P i := hc i (List.mem_cons_self _ _)
    have hacc1 : ∀ e1 ∈ locInsert acc (locOf i) i, ∀ j1 ∈ e1.2,
        locOf j1 = e1.1 ∧ P j1 := by
      intro e1 he1 j1 hj1
      rcases locInsert_mem_snd he1 j1 hj1 with ⟨e0, he0, hj0, hk⟩ | ⟨hji, hk⟩
      · rcases hacc e0 he0 j1 hj0 with ⟨hl, hP⟩
        exact ⟨hk ▸ hl, hP⟩
      · subst hji
        exact ⟨hk.symm, hPi⟩
    exact ih _ hacc1 (fun x hx => hc x (List.mem_cons_of_mem _ hx)) e he j hj

lemma locDict_go_pres {locOf : ℕ → String} :
    ∀ (c : List ℕ) (acc : List (String × List ℕ)) (e0 : String × List ℕ),
      e0 ∈ acc → ∀ j ∈ e0.2,
      ∃ e ∈ c.foldl (fun acc i => locInsert acc (locOf i) i) acc,
        e.1 = e0.1 ∧ j ∈ e.2 := by
  intro c
  induction c with
  | nil => intro acc e0 h0 j hj; exact ⟨e0, h0, rfl, hj⟩
  | cons i c ih =>
    intro acc e0 h0 j hj
    rcases @locInsert_pres _ (locOf i) i _ h0 j hj with ⟨e1, he1, hk1, hj1⟩
    rcases ih _ e1 he1 j hj1 with ⟨e, he, hk, hje⟩
    exact ⟨e, he, by rw [hk, hk1], hje⟩

lemma locDict_go_cover {locOf : ℕ → String} :
    ∀ (c : List ℕ) (acc : List (String × List ℕ)) (i : ℕ), i ∈ c →
      ∃ e ∈ c.foldl (fun acc i => locInsert acc (locOf i) i) acc,
        locOf i = e.1 ∧ i ∈ e.2 := by
  intro c
  induction c with
  | nil => intro acc i hi; cases hi
  | cons x c ih =>
    intro acc i hi
    rcases List.mem_cons.mp hi with h1 | h1
    · subst h1
      rcases @locInsert_self acc (locOf i) i with ⟨e1, he1, hk1, hi1⟩
      rcases locDict_go_pres c _ e1 he1 i hi1 with ⟨e, he, hk, hie⟩
      exact ⟨e, he, by rw [hk, hk1], hie⟩
    · exact ih _ i h1

lemma locDict_go_pairwise {locOf : ℕ → String} :
    ∀ (c : List ℕ) (acc : List (String × List ℕ)),
      acc.Pairwise (fun a b => a.1 ≠ b.1) →
      (c.foldl (fun acc i => locInsert acc (locOf i) i) acc).Pairwise
        (fun a b => a.1 ≠ b.1) := by
  intro c
  induction c with
  | nil => intro acc h; exact h
  | cons i c ih => intro acc h; exact ih _ (locInsert_pairwise h)

lemma locDict_go_nonempty {locOf : ℕ → String} :
    ∀ (c : List ℕ) (acc : List (String × List ℕ)),
      (∀ e ∈ acc, e.2 ≠ []) →
      ∀ e ∈ c.foldl (fun acc i => locInsert acc (locOf i) i) acc, e.2 ≠ [] := by
  intro c
  induction c with
  | nil => intro acc h; exact h
  | cons i c ih => intro acc h; exact ih _ (locInsert_nonempty h)

lemma locDict_snd {locOf : ℕ → String} {c : List ℕ} {e : String × List ℕ}
    (he : e ∈ locDict locOf c) : ∀ j ∈ e.2, locOf j = e.1 ∧ j ∈ c :=
  locDict_go_snd c [] (by intro e1 he1; cases he1) (fun _ hx => hx) e he

lemma locDict_cover {locOf : ℕ → String} {c : List ℕ} {i : ℕ} (hi : i ∈ c) :
    ∃ e ∈ locDict locOf c, locOf i = e.1 ∧ i ∈ e.2 :=
  locDict_go_cover c [] i hi

lemma locDict_pairwise {locOf : ℕ → String} {c : List ℕ} :
    (locDict locOf c).Pairwise (fun a b => a.1 ≠ b.1) :=
  locDict_go_pairwise c [] (by simp)

lemma locDict_nonempty {locOf : ℕ → String} {c : List ℕ} :
    ∀ e ∈ locDict locOf c, e.2 ≠ [] :=
  locDict_go_nonempty c [] (by intro e1 he1; cases he1)

lemma eq_of_mem_pairwise_keys {L : List (String × List ℕ)}
    {e1 e2 : String × List ℕ} (hp : L.Pairwise (fun a b => a.1 ≠ b.1))
    (h1 : e1 ∈ L) (h2 : e2 ∈ L) (hk : e1.1 = e2.1) : e1 = e2 := by
  induction L with
  | nil => cases h1
  | cons a L ih =>
    rcases List.pairwise_cons.mp hp with ⟨hd, hp1⟩
    rcases List.mem_cons.mp h1 with f1 | f1 <;> rcases List.mem_cons.mp h2 with f2 | f2
    · rw [f1, f2]
    · exact absurd (f1 ▸ hk) (hd e2 f2)
    · exact absurd (f2 ▸ hk).symm (hd e1 f1)
    · exact ih hp1 f1 f2

lemma split_mem_sub {locOf netOf : ℕ → String} {c g : List ℕ}
    (hg : g ∈ split_station_idx locOf netOf c) : ∀ i ∈ g, i ∈ c := by
  cases c with
  | nil => simp [split_station_idx] at hg
  | cons i0 rest =>
    by_cases hn : netOf i0 ∈ NETWORKS_USING_LOCATION
    · simp only [split_station_idx, if_pos hn] at hg
      rcases List.mem_map.mp hg with ⟨e, he, hsnd⟩
      intro i hi
      exact (locDict_snd he i (hsnd ▸ hi)).2
    · simp only [split_station_idx, if_neg hn] at hg
      intro i hi
      rcases List.mem_singleton.mp hg with rfl
      exact hi

lemma split_nonempty {locOf netOf : ℕ → String} {c g : List ℕ}
    (hg : g ∈ split_station_idx locOf netOf c) : g ≠ [] := by
  cases c with
  | nil => simp [split_station_idx] at hg
  | cons i0 rest =>
    by_cases hn : netOf i0 ∈ NETWORKS_USING_LOCATION
    · simp only [split_station_idx, if_pos hn] at hg
      rcases List.mem_map.mp hg with ⟨e, he, hsnd⟩
      exact hsnd ▸ locDict_nonempty e he
    · simp only [split_station_idx, if_neg hn] at hg
      rcases List.mem_singleton.mp hg with rfl
      simp

lemma split_cover {locOf netOf : ℕ → String} {c : List ℕ} {i : ℕ} (hi : i ∈ c) :
    ∃ g ∈ split_station_idx locOf netOf c, i ∈ g := by
  cases c with
  | nil => cases hi
  | cons i0 rest =>
    by_cases hn : netOf i0 ∈ NETWORKS_USING_LOCATION
    · simp only [split_station_idx, if_pos hn]
      rcases @locDict_cover locOf _ _ hi with ⟨e, he, _, hie⟩
      exact ⟨e.2, List.mem_map.mpr ⟨e, he, rfl⟩, hie⟩
    · simp only [split_station_idx, if_neg hn]
      exact ⟨i0 :: rest, List.mem_singleton.mpr rfl, hi⟩

lemma split_disjoint {locOf netOf : ℕ → String} {c g1 g2 : List ℕ} {x : ℕ}
    (h1 : g1 ∈ split_station_idx locOf netOf c)
    (h2 : g2 ∈ split_station_idx locOf netOf c)
    (hx1 : x ∈ g1) (hx2 : x ∈ g2) : g1 = g2 := by
  cases c with
  | nil => simp [split_station_idx] at h1
  | cons i0 rest =>
    by_cases hn : netOf i0 ∈ NETWORKS_USING_LOCATION
    · simp only [split_station_idx, if_pos hn] at h1 h2
      rcases List.mem_map.mp h1 with ⟨e1, he1, hs1⟩
      rcases List.mem_map.mp h2 with ⟨e2, he2, hs2⟩
      have hk1 : locOf x = e1.1 := (locDict_snd he1 x (hs1 ▸ hx1)).1
      have hk2 : locOf x = e2.1 := (locDict_snd he2 x (hs2 ▸ hx2)).1
      have he : e1 = e2 :=
        eq_of_mem_pairwise_keys locDict_pairwise he1 he2 (by rw [← hk1, hk2])
      rw [← hs1, ← hs2, he]
    · simp only [split_station_idx, if_neg hn] at h1 h2
      rcases List.mem_singleton.mp h1 with rfl
      rcases List.mem_singleton.mp h2 with rfl
      rfl

lemma split_loc_eq {locOf netOf : ℕ → String} {i0 : ℕ} {rest g : List ℕ}
    {i j : ℕ} (hn : netOf i0 ∈ NETWORKS_USING_LOCATION)
    (hg : g ∈ split_station_idx locOf netOf (i0 :: rest))
    (hi : i ∈ g) (hj : j ∈ g) : locOf i = locOf j := by
  simp only [split_station_idx, if_pos hn] at hg
  rcases List.mem_map.mp hg with ⟨e, he, hs⟩
  rw [(locDict_snd he i (hs ▸ hi)).1, (locDict_snd he j (hs ▸ hj)).1]

lemma split_loc_joint {locOf netOf : ℕ → String} {i0 : ℕ} {rest : List ℕ}
    {i j : ℕ} (hn : netOf i0 ∈ NETWORKS_USING_LOCATION)
    (hi : i ∈ i0 :: rest) (hj : j ∈ i0 :: rest) (hl : locOf i = locOf j) :
    ∃ g ∈ split_station_idx locOf netOf (i0 :: rest), i ∈ g ∧ j ∈ g := by
  simp only [split_station_idx, if_pos hn]
  rcases @locDict_cover locOf _ _ hi with ⟨e1, he1, hk1, hie⟩
  rcases @locDict_cover locOf _ _ hj with ⟨e2, he2, hk2, hje⟩
  have he : e1 = e2 :=
    eq_of_mem_pairwise_keys locDict_pairwise he1 he2 (by rw [← hk1, ← hk2, hl])
  exact ⟨e1.2, List.mem_map.mpr ⟨e1, he1, rfl⟩, hie, he ▸ hje⟩

/-- Grouping key of `__group_by_net_sta_inst`: network, station, the first
two channel characters (instrument), and the free-field flag. -/
def traceKey (t : Trace) : String × String × String × Bool :=
  (t.network, t.station, t.channel.take 2, free_field t)

/-- Index-level grouping engine `StreamCollection.__group_by_net_sta_inst`
(streamcollection.py lines 487-542) without the parameter bookkeeping:
cluster the indices of the flattened trace list by `traceKey` equality,
then apply the `split_station` location rule to each cluster. -/
def sc_group_indices (ts : List Trace) : List (List ℕ) :=
  (clusters (fun i => traceKey (ts.getD i default)) ts.length).flatMap
    (split_station_idx (fun i => (ts.getD i default).location)
      (fun i => (ts.getD i default).network))

/-- Trace-level grouping engine: the streams built from the index groups. -/
def group_by_net_sta_inst (ts : List Trace) : List (List Trace) :=
  (sc_group_indices ts).map (fun c => c.map (fun i => ts.getD i default))

lemma network_eq_of_traceKey {t u : Trace} (h : traceKey t = traceKey u) :
    t.network = u.network := congrArg (fun p => p.1) h

lemma sc_mem_iff {ts : List Trace} {g : List ℕ} :
    g ∈ sc_group_indices ts ↔
      ∃ c ∈ clusters (fun i => traceKey (ts.getD i default)) ts.length,
        g ∈ split_station_idx (fun i => (ts.getD i default).location)
          (fun i => (ts.getD i default).network) c :=
  List.mem_flatMap

lemma sc_group_key_eq {ts : List Trace} {g : List ℕ} {i j : ℕ}
    (hg : g ∈ sc_group_indices ts) (hi : i ∈ g) (hj : j ∈ g) :
    traceKey (ts.getD i default) = traceKey (ts.getD j default) := by
  rcases sc_mem_iff.mp hg with ⟨c, hc, hgc⟩
  exact clusters_key_eq hc (split_mem_sub hgc i hi) (split_mem_sub hgc j hj)

lemma sc_group_mem_lt {ts : List Trace} {g : List ℕ} {i : ℕ}
    (hg : g ∈ sc_group_indices ts) (hi : i ∈ g) : i < ts.length := by
  rcases sc_mem_iff.mp hg with ⟨c, hc, hgc⟩
  exact clusters_mem_lt hc (split_mem_sub hgc i hi)

lemma sc_group_loc {ts : List Trace} {g : List ℕ} {i j : ℕ}
    (hg : g ∈ sc_group_indices ts) (hi : i ∈ g) (hj : j ∈ g)
    (hn : (ts.getD i default).network ∈ NETWORKS_USING_LOCATION) :
    (ts.getD i default).location = (ts.getD j default).location := by
  rcases sc_mem_iff.mp hg with ⟨c, hc, hgc⟩
  cases c with
  | nil => exact absurd rfl (clusters_nonempty hc)
  | cons i0 rest =>
    have hkey := clusters_key_eq hc (split_mem_sub hgc i hi)
      (List.mem_cons_self i0 rest)
    have hn0 : (ts.getD i0 default).network ∈ NETWORKS_USING_LOCATION := by
      rw [← network_eq_of_traceKey hkey]
      exact hn
    exact split_loc_eq hn0 hgc hi hj

lemma sc_group_cover {ts : List Trace} {i : ℕ} (hi : i < ts.length) :
    ∃ g ∈ sc_group_indices ts, i ∈ g := by
  rcases @clusters_cover _ _ (fun i => traceKey (ts.getD i default)) _ _ hi
    with ⟨c, hc, hic⟩
  rcases @split_cover (fun i => (ts.getD i default).location)
      (fun i => (ts.getD i default).network) _ _ hic with ⟨g, hg, hig⟩
  exact ⟨g, sc_mem_iff.mpr ⟨c, hc, hg⟩, hig⟩

lemma sc_group_joint {ts : List Trace} {i j : ℕ} (hi : i < ts.length)
    (hj : j < ts.length)
    (hk : traceKey (ts.getD i default) = traceKey (ts.getD j default))
    (hl : (ts.getD i default).network ∈ NETWORKS_USING_LOCATION →
      (ts.getD i default).location = (ts.getD j default).location) :
    ∃ g ∈ sc_group_indices ts, i ∈ g ∧ j ∈ g := by
  rcases @clusters_joint _ _ (fun x => traceKey (ts.getD x default)) _ _ _
      hi hj hk with ⟨c, hc, hic, hjc⟩
  cases c with
  | nil => cases hic
  | cons i0 rest =>
    by_cases hn : (ts.getD i0 default).network ∈ NETWORKS_USING_LOCATION
    · have hkey := clusters_key_eq hc hic (List.mem_cons_self i0 rest)
      have hni : (ts.getD i default).network ∈ NETWORKS_USING_LOCATION := by
        rw [network_eq_of_traceKey hkey]
        exact hn
      rcases @split_loc_joint (fun x => (ts.getD x default).location)
          (fun x => (ts.getD x default).network) _ _ _ _
          hn hic hjc (hl hni) with ⟨g, hg, hig, hjg⟩
      exact ⟨g, sc_mem_iff.mpr ⟨i0 :: rest, hc, hg⟩, hig, hjg⟩
    · refine ⟨i0 :: rest, sc_mem_iff.mpr ⟨i0 :: rest, hc, ?_⟩, hic, hjc⟩
      simp only [split_station_idx]
      rw [if_neg hn]
      exact List.mem_singleton.mpr rfl

lemma sc_group_disjoint {ts : List Trace} {g1 g2 : List ℕ} {x : ℕ}
    (h1 : g1 ∈ sc_group_indices ts) (h2 : g2 ∈ sc_group_indices ts)
    (hx1 : x ∈ g1) (hx2 : x ∈ g2) : g1 = g2 := by
  rcases sc_mem_iff.mp h1 with ⟨c1, hc1, hg1⟩
  rcases sc_mem_iff.mp h2 with ⟨c2, hc2, hg2⟩
  have hc : c1 = c2 :=
    clusters_disjoint hc1 hc2 (split_mem_sub hg1 x hx1) (split_mem_sub hg2 x hx2)
  subst hc
  exact split_disjoint hg1 hg2 hx1 hx2

lemma sc_group_nonempty {ts : List Trace} {g : List ℕ}
    (hg : g ∈ sc_group_indices ts) : g ≠ [] := by
  rcases sc_mem_iff.mp hg with ⟨c, _, hgc⟩
  exact split_nonempty hgc

/-- Fixture for the C4 scenario: four traces of the location-using network
"RE", same station and instrument code, two distinct location codes. -/
def exRE : List Trace :=
  [{ tBase with network := "RE", location := "01" },
   { tBase with network := "RE", location := "02", channel := "HNE" },
   { tBase with network := "RE", location := "01", channel := "HNN" },
   { tBase with network := "RE", location := "02" }]

/-- C4: the grouping engine places two trace positions in the same group
exactly when their network, station, instrument code (first two channel
characters) and free-field flag all match and, for networks of the
uses-location exception set, their location codes also match; moreover the
four-trace scenario over network "RE" with two distinct location codes
yields exactly the two groups, one per location, and singleton clusters
survive as their own group (the case i = j of the equivalence). -/
theorem group_by_net_sta_inst_partition :
    (∀ (ts : List Trace) (i j : ℕ), i < ts.length → j < ts.length →
      ((∃ g ∈ sc_group_indices ts, i ∈ g ∧ j ∈ g) ↔
        (traceKey (ts.getD i default) = traceKey (ts.getD j default) ∧
          ((ts.getD i default).network ∈ NETWORKS_USING_LOCATION →
            (ts.getD i default).location = (ts.getD j default).location)))) ∧
    sc_group_indices exRE = [[0, 2], [1, 3]] := by
  constructor
  · intro ts i j hi hj
    constructor
    · rintro ⟨g, hg, hig, hjg⟩
      exact ⟨sc_group_key_eq hg hig hjg, fun hn => sc_group_loc hg hig hjg hn⟩
    · rintro ⟨hk, hl⟩
      exact sc_group_joint hi hj hk hl
  · decide

/-- Witness for C4: in the four-trace "RE" scenario, positions 0 and 2
(the two traces at location "01") do land in a common group. -/
theorem group_by_net_sta_inst_partition_witness :
    ∃ g ∈ sc_group_indices exRE, 0 ∈ g ∧ 2 ∈ g :=
  (group_by_net_sta_inst_partition.1 exRE 0 2 (by decide) (by decide)).mpr
    (by decide)

/-- Equivalence that the grouping engine realizes on trace values: equal
grouping key, and equal location code when the network uses locations. -/
def eqvT (t u : Trace) : Prop :=
  traceKey t = traceKey u ∧
    (t.network ∈ NETWORKS_USING_LOCATION → t.location = u.location)

lemma eqvT_refl (t : Trace) : eqvT t t := ⟨rfl, fun _ => rfl⟩

lemma getD_mem {ts : List Trace} {j : ℕ} (hj : j < ts.length) :
    ts.getD j default ∈ ts := by
  rw [List.getD_eq_getElem ts default hj]
  exact List.getElem_mem hj

lemma group_char {ts : List Trace} {G : List Trace} {t : Trace}
    (hG : G ∈ group_by_net_sta_inst ts) (ht : t ∈ G) :
    ∀ u, u ∈ G ↔ (u ∈ ts ∧ eqvT t u) := by
  rcases List.mem_map.mp hG with ⟨g, hg, hmap⟩
  subst hmap
  rcases List.mem_map.mp ht with ⟨i, hig, hit⟩
  intro u
  constructor
  · intro hu
    rcases List.mem_map.mp hu with ⟨j, hjg, hju⟩
    have hlt := sc_group_mem_lt hg hjg
    have hkey := sc_group_key_eq hg hig hjg
    have hloc := fun hn => sc_group_loc hg hig hjg hn
    rw [hit] at hkey hloc
    rw [hju] at hkey hloc
    exact ⟨hju ▸ getD_mem hlt, hkey, hloc⟩
  · rintro ⟨hu, hk, hl⟩
    rcases List.getElem_of_mem hu with ⟨j, hj, hju⟩
    have hjD : ts.getD j default = u := by
      rw [List.getD_eq_getElem ts default hj, hju]
    have hkey : traceKey (ts.getD i default) = traceKey (ts.getD j default) := by
      rw [hit, hjD, hk]
    have hloc : (ts.getD i default).network ∈ NETWORKS_USING_LOCATION →
        (ts.getD i default).location = (ts.getD j default).location := by
      rw [hit, hjD]
      exact hl
    rcases sc_group_joint (sc_group_mem_lt hg hig) hj hkey hloc
      with ⟨g2, hg2, hig2, hjg2⟩
    have : g = g2 := sc_group_disjoint hg hg2 hig hig2
    subst this
    exact List.mem_map.mpr ⟨j, hjg2, hjD⟩

lemma group_value_cover {ts : List Trace} {u : Trace} (hu : u ∈ ts) :
    ∃ G ∈ group_by_net_sta_inst ts, u ∈ G := by
  rcases List.getElem_of_mem hu with ⟨j, hj, hju⟩
  rcases @sc_group_cover ts _ hj with ⟨g, hg, hjg⟩
  refine ⟨g.map (fun i => ts.getD i default), List.mem_map.mpr ⟨g, hg, rfl⟩, ?_⟩
  refine List.mem_map.mpr ⟨j, hjg, ?_⟩
  rw [List.getD_eq_getElem ts default hj, hju]

lemma group_flatten_mem {ts : List Trace} {u : Trace} :
    u ∈ (group_by_net_sta_inst ts).flatten ↔ u ∈ ts := by
  constructor
  · intro hu
    rcases List.mem_flatten.mp hu with ⟨G, hG, huG⟩
    exact ((group_char hG huG u).mp huG).1
  · intro hu
    rcases group_value_cover hu with ⟨G, hG, huG⟩
    exact List.mem_flatten.mpr ⟨G, hG, huG⟩

lemma group_mem_nonempty {ts : List Trace} {G : List Trace}
    (hG : G ∈ group_by_net_sta_inst ts) : G ≠ [] := by
  rcases List.mem_map.mp hG with ⟨g, hg, hmap⟩
  subst hmap
  simp [sc_group_nonempty hg]

/-- C9: running the grouping engine on its own flattened output yields
groups with identical membership (as sets of traces, irrespective of group
order): every group of the first run corresponds to a group of the second
run with the same members and conversely. -/
theorem group_by_net_sta_inst_idempotent (ts : List Trace) :
    (∀ G1 ∈ group_by_net_sta_inst ts,
      ∃ G2 ∈ group_by_net_sta_inst ((group_by_net_sta_inst ts).flatten),
        ∀ t, t ∈ G1 ↔ t ∈ G2) ∧
    (∀ G2 ∈ group_by_net_sta_inst ((group_by_net_sta_inst ts).flatten),
      ∃ G1 ∈ group_by_net_sta_inst ts, ∀ t, t ∈ G1 ↔ t ∈ G2) := by
  constructor
  · intro G1 hG1
    rcases List.exists_mem_of_ne_nil G1 (group_mem_nonempty hG1) with ⟨t, ht⟩
    have ht2 : t ∈ (group_by_net_sta_inst ts).flatten :=
      List.mem_flatten.mpr ⟨G1, hG1, ht⟩
    rcases group_value_cover ht2 with ⟨G2, hG2, htG2⟩
    refine ⟨G2, hG2, fun u => ?_⟩
    rw [group_char hG1 ht u, group_char hG2 htG2 u, group_flatten_mem]
  · intro G2 hG2
    rcases List.exists_mem_of_ne_nil G2 (group_mem_nonempty hG2) with ⟨t, ht⟩
    have ht2 : t ∈ ts := group_flatten_mem.mp ((group_char hG2 ht t).mp ht).1
    rcases group_value_cover ht2 with ⟨G1, hG1, htG1⟩
    refine ⟨G1, hG1, fun u => ?_⟩
    rw [group_char hG1 htG1 u, group_char hG2 ht u, group_flatten_mem]

/-- Concrete group of the exRE scenario used to witness C9. -/
def exREg1 : List Trace :=
  [{ tBase with network := "RE", location := "01" },
   { tBase with network := "RE", location := "01", channel := "HNN" }]

/-- Witness for C9 at a concrete input. -/
theorem group_by_net_sta_inst_idempotent_witness :
    ∃ G2 ∈ group_by_net_sta_inst ((group_by_net_sta_inst exRE).flatten),
      ∀ t, t ∈ exREg1 ↔ t ∈ G2 :=
  (group_by_net_sta_inst_idempotent exRE).1 exREg1 (by decide)

/-- One iteration of the dedup loop of
`StreamCollection.__handle_duplicates` (streamcollection.py lines
585-609): scan the already-kept traces for the first duplicate of the
incoming trace (the `break` makes it the first match); on a duplicate,
keep whichever trace `choose_preferred` selects (the Python comparison
`choose_preferred(...) == tr_to_add` is false when the resolver falls
through to `None`, so the incumbent then stays). -/
def dedup_step (dist : ℚ → ℚ → ℚ → ℚ → ℚ) (tol : ℚ) (plp fp : List String)
    (preferred : List Trace) (tr_to_add : Trace) : List Trace :=
  match preferred.find? (fun tr_pref => are_duplicates dist tol tr_to_add tr_pref) with
  | none => preferred ++ [tr_to_add]
  | some tr_pref =>
    if choose_preferred tr_to_add tr_pref plp fp = some tr_to_add then
      preferred.erase tr_pref ++ [tr_to_add]
    else
      preferred

/-- Trace-level dedup pass of `StreamCollection.__handle_duplicates`: fold
the incoming traces in original order into the kept list. -/
def dedup_traces (dist : ℚ → ℚ → ℚ → ℚ → ℚ) (tol : ℚ) (plp fp : List String)
    (traces : List Trace) : List Trace :=
  traces.foldl (dedup_step dist tol plp fp) []

lemma dedup_step_eq_none {dist : ℚ → ℚ → ℚ → ℚ → ℚ} {tol : ℚ}
    {plp fp : List String} {kept : List Trace} {t : Trace}
    (hfind : kept.find? (fun tr_pref => are_duplicates dist tol t tr_pref) = none) :
    dedup_step dist tol plp fp kept t = kept ++ [t] := by
  unfold dedup_step
  rw [hfind]

lemma dedup_step_eq_win {dist : ℚ → ℚ → ℚ → ℚ → ℚ} {tol : ℚ}
    {plp fp : List String} {kept : List Trace} {t p0 : Trace}
    (hfind : kept.find? (fun tr_pref => are_duplicates dist tol t tr_pref) = some p0)
    (hwin : choose_preferred t p0 plp fp = some t) :
    dedup_step dist tol plp fp kept t = kept.erase p0 ++ [t] := by
  unfold dedup_step
  rw [hfind]
  exact if_pos hwin

lemma dedup_step_eq_lose {dist : ℚ → ℚ → ℚ → ℚ → ℚ} {tol : ℚ}
    {plp fp : List String} {kept : List Trace} {t p0 : Trace}
    (hfind : kept.find? (fun tr_pref => are_duplicates dist tol t tr_pref) = some p0)
    (hwin : ¬ choose_preferred t p0 plp fp = some t) :
    dedup_step dist tol plp fp kept t = kept := by
  unfold dedup_step
  rw [hfind]
  exact if_neg hwin

lemma are_duplicates_symm {dist : ℚ → ℚ → ℚ → ℚ → ℚ} {tol : ℚ}
    (hd : ∀ la lo la2 lo2, dist la lo la2 lo2 = dist la2 lo2 la lo)
    (a b : Trace) :
    are_duplicates dist tol a b = are_duplicates dist tol b a := by
  by_cases hid : trace_id a = trace_id b
  · simp [are_duplicates, hid]
  · have hid2 : ¬ trace_id b = trace_id a := fun h => hid h.symm
    have e : (b.station = a.station ∧ b.location = a.location ∧
        b.channel = a.channel ∧
        dist b.latitude b.longitude a.latitude a.longitude < tol) ↔
        (a.station = b.station ∧ a.location = b.location ∧
        a.channel = b.channel ∧
        dist a.latitude a.longitude b.latitude b.longitude < tol) := by
      rw [hd b.latitude b.longitude a.latitude a.longitude]
      constructor <;> (rintro ⟨h1, h2, h3, h4⟩; exact ⟨h1.symm, h2.symm, h3.symm, h4⟩)
    simp [are_duplicates, hid, hid2, e]

lemma find?_first {p : Trace → Bool} :
    ∀ {l : List Trace} {x : Trace}, l.find? p = some x →
      p x = true ∧ ∃ l1 l2, l = l1 ++ x :: l2 ∧ ∀ y ∈ l1, p y = false := by
  intro l
  induction l with
  | nil => intro x h; simp [List.find?] at h
  | cons a l ih =>
    intro x h
    by_cases ha : p a = true
    · rw [List.find?_cons_of_pos l ha] at h
      rcases Option.some.inj h with rfl
      exact ⟨ha, [], l, rfl, by intro y hy; cases hy⟩
    · rw [List.find?_cons_of_neg l ha] at h
      rcases ih h with ⟨hx, l1, l2, rfl, hl1⟩
      refine ⟨hx, a :: l1, l2, rfl, ?_⟩
      intro y hy
      rcases List.mem_cons.mp hy with rfl | hy1
      · exact Bool.eq_false_iff.mpr (fun e => ha e)
      · exact hl1 y hy1

lemma dedup_go_invariant {dist : ℚ → ℚ → ℚ → ℚ → ℚ} {tol : ℚ}
    {plp fp : List String} {ts0 : List Trace}
    (hd : ∀ la lo la2 lo2, dist la lo la2 lo2 = dist la2 lo2 la lo)
    (htrans : ∀ a b c, a ∈ ts0 → b ∈ ts0 → c ∈ ts0 →
      are_duplicates dist tol a b = true → are_duplicates dist tol b c = true →
      are_duplicates dist tol a c = true) :
    ∀ (l kept : List Trace), (∀ x ∈ l, x ∈ ts0) → (∀ x ∈ kept, x ∈ ts0) →
      kept.Pairwise (fun a b => are_duplicates dist tol a b = false) →
      (∀ x ∈ l.foldl (dedup_step dist tol plp fp) kept, x ∈ ts0) ∧
        (l.foldl (dedup_step dist tol plp fp) kept).Pairwise
          (fun a b => are_duplicates dist tol a b = false) := by
  intro l
  induction l with
  | nil => intro kept _ hk hp; exact ⟨hk, hp⟩
  | cons t l ih =>
    intro kept hl hk hp
    have htts : t ∈ ts0 := hl t (List.mem_cons_self _ _)
    have hl1 : ∀ x ∈ l, x ∈ ts0 := fun x hx => hl x (List.mem_cons_of_mem _ hx)
    have hstep : (∀ x ∈ dedup_step dist tol plp fp kept t, x ∈ ts0) ∧
        (dedup_step dist tol plp fp kept t).Pairwise
          (fun a b => are_duplicates dist tol a b = false) := by
      rcases hfind : kept.find?
          (fun tr_pref => are_duplicates dist tol t tr_pref) with _ | p0
      · have hnone : ∀ q ∈ kept, are_duplicates dist tol q t = false := by
          intro q hq
          have := List.find?_eq_none.mp hfind q hq
          rw [are_duplicates_symm hd q t]
          exact Bool.eq_false_iff.mpr this
        rw [dedup_step_eq_none hfind]
        refine ⟨?_, ?_⟩
        · intro x hx
          rcases List.mem_append.mp hx with hx1 | hx1
          · exact hk x hx1
          · rcases List.mem_singleton.mp hx1 with rfl
            exact htts
        · refine List.pairwise_append.mpr ⟨hp, List.pairwise_singleton _ _, ?_⟩
          intro q hq b hb
          rcases List.mem_singleton.mp hb with rfl
          exact hnone q hq
      · rcases find?_first hfind with ⟨hdup, l1, l2, hsplit, hl1f⟩
        by_cases hwin : choose_preferred t p0 plp fp = some t
        · have hp0ts : p0 ∈ ts0 := hk p0 (by rw [hsplit]; simp)
          have hp0nl1 : p0 ∉ l1 := by
            intro hmem
            rw [hl1f p0 hmem] at hdup
            cases hdup
          have herase : kept.erase p0 = l1 ++ l2 := by
            rw [hsplit, List.erase_append_right (p0 :: l2) hp0nl1,
              List.erase_cons_head]
          have hq : ∀ q ∈ l1 ++ l2, are_duplicates dist tol q t = false := by
            intro q hq
            rcases List.mem_append.mp hq with hq1 | hq1
            · rw [are_duplicates_symm hd q t]
              exact hl1f q hq1
            · have hqts : q ∈ ts0 := hk q (by rw [hsplit]; simp [Or.inr hq1])
              rw [are_duplicates_symm hd q t]
              rcases htq : are_duplicates dist tol t q with _ | _
              · rfl
              · have hp0t : are_duplicates dist tol p0 t = true := by
                  rw [are_duplicates_symm hd p0 t]
                  exact hdup
                have hp0q : are_duplicates dist tol p0 q = true :=
                  htrans p0 t q hp0ts htts hqts hp0t htq
                have : are_duplicates dist tol p0 q = false := by
                  have hpair := hp
                  rw [hsplit] at hpair
                  rcases List.pairwise_append.mp hpair with ⟨_, hpc, _⟩
                  exact (List.pairwise_cons.mp hpc).1 q hq1
                rw [hp0q] at this
                cases this
          have hpk : (l1 ++ l2).Pairwise
              (fun a b => are_duplicates dist tol a b = false) :=
            List.Pairwise.sublist
              (List.Sublist.append_left (List.sublist_cons_self p0 l2) l1)
              (hsplit ▸ hp)
          rw [dedup_step_eq_win hfind hwin]
          refine ⟨?_, ?_⟩
          · intro x hx
            rcases List.mem_append.mp hx with hx2 | hx2
            · exact hk x (List.erase_subset p0 kept hx2)
            · rcases List.mem_singleton.mp hx2 with rfl
              exact htts
          · rw [herase]
            refine List.pairwise_append.mpr
              ⟨hpk, List.pairwise_singleton _ _, ?_⟩
            intro q hqm b hb
            rcases List.mem_singleton.mp hb with rfl
            exact hq q hqm
        · rw [dedup_step_eq_lose hfind hwin]
          exact ⟨hk, hp⟩
    exact ih (dedup_step dist tol plp fp kept t) hl1 hstep.1 hstep.2

/-- C10 (amended): after the dedup pass the kept traces are pairwise
non-duplicates, provided the distance function is symmetric and the
duplicate relation at the given tolerance is transitive across the input
traces.  Without transitivity an incoming winner can evict its first
duplicate yet remain a duplicate of a later kept trace, which the scan
never rechecks (see the counterexample). -/
theorem handle_duplicates_pairwise (dist : ℚ → ℚ → ℚ → ℚ → ℚ) (tol : ℚ)
    (plp fp : List String) (ts : List Trace)
    (hd : ∀ la lo la2 lo2, dist la lo la2 lo2 = dist la2 lo2 la lo)
    (htrans : ∀ a b c, a ∈ ts → b ∈ ts → c ∈ ts →
      are_duplicates dist tol a b = true → are_duplicates dist tol b c = true →
      are_duplicates dist tol a c = true) :
    (dedup_traces dist tol plp fp ts).Pairwise
      (fun a b => are_duplicates dist tol a b = false) :=
  (dedup_go_invariant hd htrans ts [] (fun _ hx => hx)
    (fun x hx => absurd hx (List.not_mem_nil x)) List.Pairwise.nil).2

/-- Distance table for the C10 counterexample, defined without rational
arithmetic so that concrete runs evaluate: stations at longitudes 0 and 60
are 60 meters apart, every other pair 30 meters. -/
def dCex : ℚ → ℚ → ℚ → ℚ → ℚ := fun _ lo1 _ lo2 =>
  if lo1 = lo2 then 0
  else if (lo1 = 0 ∧ lo2 = 60) ∨ (lo1 = 60 ∧ lo2 = 0) then 60
  else 30

lemma dCex_symm : ∀ la lo la2 lo2, dCex la lo la2 lo2 = dCex la2 lo2 la lo := by
  intro la lo la2 lo2
  by_cases h : lo = lo2
  · simp [dCex, h]
  · have h2 : ¬ lo2 = lo := fun e => h e.symm
    have e : ((lo2 = 0 ∧ lo = 60) ∨ (lo2 = 60 ∧ lo = 0)) ↔
        ((lo = 0 ∧ lo2 = 60) ∨ (lo = 60 ∧ lo2 = 0)) := by tauto
    simp [dCex, h, h2, e]

/-- First incumbent of the C10 counterexample (longitude 0, raw counts). -/
def tP1 : Trace := { tBase with network := "N1", longitude := 0 }

/-- Second incumbent (longitude 60: not a duplicate of `tP1`). -/
def tP2 : Trace := { tBase with network := "N2", longitude := 60 }

/-- Late arrival (longitude 30: duplicate of both incumbents, and it wins
against `tP1` on process level). -/
def tNew : Trace :=
  { tBase with
      network := "N3"
      longitude := 30
      process_level := "corrected physical units" }

/-- Counterexample for C10 as stated: after the dedup pass the survivors
`tP2` and `tNew` are still duplicates of each other at the same tolerance
(the winner replaced `tP1`, the first duplicate found, and was never
compared against `tP2`). -/
theorem handle_duplicates_pairwise_cex :
    dedup_traces dCex 50 ["V2", "V0"] ["cosmos"] [tP1, tP2, tNew] =
      [tP2, tNew] ∧
    are_duplicates dCex 50 tP2 tNew = true := by decide

/-- Witness for the amended C10 at a concrete input on which the duplicate
relation is transitive. -/
theorem handle_duplicates_pairwise_witness :
    (dedup_traces dCex 50 ["V2", "V0"] ["cosmos"] [tP1, tP2]).Pairwise
      (fun a b => are_duplicates dCex 50 a b = false) :=
  handle_duplicates_pairwise dCex 50 ["V2", "V0"] ["cosmos"] [tP1, tP2]
    dCex_symm
    (by
      intro a b c ha hb hc hab hbc
      simp only [List.mem_cons, List.not_mem_nil, or_false] at ha hb hc
      rcases ha with rfl | rfl <;> rcases hb with rfl | rfl <;>
        rcases hc with rfl | rfl <;> revert hab hbc <;> decide)

/-- StationStream: the data view of a `StationStream`.  Modelled from the spec:
stationstream.py is not under src/; the spec (§3) describes a Group as an
ordered sequence of TraceRecords that optionally carries a free-text tag
(the `tag` attribute, absent unless set) and a group-scoped parameter
mapping. -/
structure StationStream where
  traces : List Trace
  tag : Option String
  parameters : List (String × String)
  deriving DecidableEq, Inhabited

/-- Split of a character list at a separator, with Python `str.split`
semantics for a one-character separator (empty fields preserved). -/
def splitChar (sep : Char) : List Char → List (List Char)
  | [] => [[]]
  | c :: cs =>
    match splitChar sep cs with
    | [] => if c = sep then [[], [c]] else [[c]]
    | g :: gs => if c = sep then [] :: g :: gs else (c :: g) :: gs

/-- Label extraction of `StreamCollection.validate`: Python unpacks
`eventid, station, label = stream.tag.split('_')`, a `ValueError` unless
the tag splits into exactly three fields; a stream without a tag
contributes the empty label. -/
def collectLabels : List StationStream → Except String (List String)
  | [] => Except.ok []
  | st :: rest =>
    match st.tag with
    | some tag =>
      match splitChar '_' tag.data with
      | [_, _, label] =>
        (collectLabels rest).map (fun ls => String.mk label :: ls)
      | _ => Except.error "ValueError: tag does not unpack into three fields"
    | none => (collectLabels rest).map (fun ls => "" :: ls)

/-- Validation check of `StreamCollection.validate` (streamcollection.py
lines 117-131): collect the label field of every stream tag and raise the
consistency error when more than one distinct label is present. -/
def validate (streams : List StationStream) : Except String Unit :=
  match collectLabels streams with
  | Except.error e => Except.error e
  | Except.ok labels =>
    if 1 < labels.dedup.length then
      Except.error "Only one label allowed within a StreamCollection."
    else
      Except.ok ()

instance {e a : Type} [DecidableEq e] [DecidableEq a] :
    DecidableEq (Except e a) := fun x y =>
  match x, y with
  | Except.error e1, Except.error e2 =>
    if h : e1 = e2 then isTrue (by rw [h])
    else isFalse (by intro hc; injection hc; contradiction)
  | Except.error _, Except.ok _ => isFalse (fun hc => Except.noConfusion hc)
  | Except.ok _, Except.error _ => isFalse (fun hc => Except.noConfusion hc)
  | Except.ok a1, Except.ok a2 =>
    if h : a1 = a2 then isTrue (by rw [h])
    else isFalse (by intro hc; injection hc; contradiction)

/-- Streams with distinct tags but a common label field. -/
def sTagA : StationStream := { traces := [tBase], tag := some "a_b_X", parameters := [] }

/-- Second stream with a distinct tag but the same label field "X". -/
def sTagB : StationStream := { traces := [tBase], tag := some "c_d_X", parameters := [] }

/-- Counterexample for C8 as stated: two groups carrying distinct tag
values do not raise the consistency error, because `validate` compares
only the third underscore-separated field (the label) of each tag. -/
theorem validate_cex :
    sTagA.tag ≠ sTagB.tag ∧ validate [sTagA, sTagB] = Except.ok () := by decide

/-- C8 (amended): `validate` raises the consistency error exactly when the
streams carry more than one distinct label, where the label is the third
underscore-separated field of the tag (streams without a tag contribute
the empty label, and a tag that does not split into exactly three fields
raises a ValueError instead, excluded here by the hypothesis). -/
theorem validate_label_invariant (streams : List StationStream) (labels : List String)
    (h : collectLabels streams = Except.ok labels) :
    (validate streams =
        Except.error "Only one label allowed within a StreamCollection.") ↔
      1 < labels.dedup.length := by
  unfold validate
  rw [h]
  by_cases hl : 1 < labels.dedup.length
  · simp [hl]
  · simp [hl]

/-- Stream tagged "evt_sta_A" for the C8 scenario. -/
def sEvtA : StationStream :=
  { traces := [tBase], tag := some "evt_sta_A", parameters := [] }

/-- Stream tagged "evt_sta_B" for the C8 scenario. -/
def sEvtB : StationStream :=
  { traces := [tBase], tag := some "evt_sta_B", parameters := [] }

/-- Witness for the amended C8: the spec scenario with labels "A" and "B"
raises the consistency error. -/
theorem validate_label_invariant_witness :
    validate [sEvtA, sEvtB] =
      Except.error "Only one label allowed within a StreamCollection." :=
  (validate_label_invariant [sEvtA, sEvtB] ["A", "B"] (by decide)).mpr
    (by decide)

/-- Character-level upper-casing (Python `str.upper`), kept at the
`List Char` level so that concrete evaluation reduces. -/
def upperData (s : String) : List Char := s.data.map Char.toUpper

/-- Network and station pair of a stream.  Modelled from the spec:
StationStream.get_net_sta (stationstream.py is not under src/); the spec
clusters colocated groups by "(network, station) identity" of the group,
taken from its first trace.  The Python method joins the two codes with a
dot; the pair is the componentwise reading. -/
def get_net_sta (st : StationStream) : String × String :=
  match st.traces with
  | [] => ("", "")
  | t :: _ => (t.network, t.station)

/-- Instrument code of a stream.  Modelled from the spec:
StationStream.get_inst (stationstream.py is not under src/); per the spec
glossary the instrument code is the first two characters of the channel
code, taken from the stream's first trace. -/
def get_inst (st : StationStream) : String :=
  match st.traces with
  | [] => ""
  | t :: _ => t.channel.take 2

/-- Failure annotation of `StationTrace.fail` (stationtrace.py lines
233-251): store the failure under the "failure" parameter key (the source
stores a dict of calling module and reason; the value is modelled by the
reason string). -/
def failTrace (reason : String) (t : Trace) : Trace :=
  { t with parameters := dictInsert t.parameters "failure" reason }

/-- Mark every trace of a stream as failed. -/
def failStream (reason : String) (st : StationStream) : StationStream :=
  { st with traces := st.traces.map (failTrace reason) }

/-- Collection-wide selection-and-fail step used by `select_colocated`:
`for st in self.select(instrument=tf): for tr in st: tr.fail(...)`.
`StreamCollection.select` (streamcollection.py lines 453-485) matches the
upper-cased instrument code of every stream of the whole collection with
`fnmatch`; the codes passed here are literal two-character instrument
codes harvested from traces, without glob metacharacters, so the match is
case-insensitive equality.  The selected streams share their trace
objects with the collection, so failing them updates the collection. -/
def colocFailSelect (reason tf : String) (streams : List StationStream) :
    List StationStream :=
  streams.map (fun st =>
    if upperData (get_inst st) = upperData tf then failStream reason st else st)

/-- Match of a colocation preference pattern against an instrument code:
the source compiles `pref[0:2]` and uses `re.match`, i.e. the two leading
literal characters of the pattern must be a prefix of the code. -/
def prefMatchB (pref inst : String) : Bool :=
  listPrefixB (pref.take 2).data inst.data

/-- First preference entry matching one of the group's instrument codes,
returning the first matching code (`inst_match[0]` of the source). -/
def findPrefInst (preference : List String) (group_insts : List String) :
    Option String :=
  match preference with
  | [] => none
  | pref :: rest =>
    match group_insts.filter (fun inst => prefMatchB pref inst) with
    | [] => findPrefInst rest group_insts
    | keep :: _ => some keep

/-- Per-cluster body of `StreamCollection.select_colocated`
(streamcollection.py lines 176-213): for a colocated cluster of stream
indices, pick the first preferred instrument present; fail, via the
collection-wide select, every stream whose code is in the group's
instrument list minus the first occurrence of the kept code; when no
preference matches, fail every stream of the cluster with the distinct
no-preference-match reason. -/
def colocGroupStep (preference : List String) (streams : List StationStream)
    (group : List ℕ) : List StationStream :=
  if 1 < group.length then
    match findPrefInst preference
        (group.map (fun g => get_inst (streams.getD g default))) with
    | some keep =>
      ((group.map (fun g => get_inst (streams.getD g default))).erase keep).foldl
        (fun strs tf =>
          colocFailSelect ("Colocated with " ++ keep ++ " instrument.") tf strs)
        streams
    | none =>
      streams.mapIdx (fun i st =>
        if i ∈ group then
          failStream
            ("No instruments match entries in the colocated instrument preference list for this station.")
            st
        else st)
  else streams

/-- Colocation resolver `StreamCollection.select_colocated`
(streamcollection.py lines 133-213): cluster streams by network/station
with the shared pairwise scan, then process each cluster in order. -/
def select_colocated (streams : List StationStream) (preference : List String) :
    List StationStream :=
  (clusters (fun i => get_net_sta (streams.getD i default)) streams.length).foldl
    (colocGroupStep preference) streams

/-- Stream fixture: station "A", instrument "HN". -/
def csHN : StationStream :=
  { traces := [tBase], tag := none, parameters := [] }

/-- Stream fixture: station "A", instrument "BN" (colocated with csHN). -/
def csBN : StationStream :=
  { traces := [{ tBase with channel := "BNZ" }], tag := none, parameters := [] }

/-- Stream fixture: station "B", instrument "BN" — a singleton cluster at
a different station. -/
def csOther : StationStream :=
  { traces := [{ tBase with station := "B", channel := "BNZ" }],
    tag := none, parameters := [] }

/-- C5 (code bug): resolving the colocated cluster at station "A" (codes
"HN" and "BN", preference ["HN?", "BN?"]) also fails the stream at
station "B", which is a singleton cluster outside the colocated group,
because the losing code is failed through `self.select(instrument=tf)`
over the whole collection; the source's own comment says "Label all
non-selected streams in the group as failed".  The evaluation shows the
station-"B" trace carrying the failure annotation that names the winning
instrument of station "A"'s cluster. -/
theorem select_colocated_out_of_cluster :
    get_net_sta csOther ≠ get_net_sta csHN ∧
    (((select_colocated [csHN, csBN, csOther] ["HN?", "BN?"]).getD 2
        default).traces.map (fun t => dictFind t.parameters "failure")) =
      [some "Colocated with HN instrument."] := by decide

/-- Identity triple of a single trace: network, station, instrument code.
A stream's canonical identifier is this triple for its first trace. -/
def tripleOf (t : Trace) : String × String × String :=
  (t.network, t.station, t.channel.take 2)

/-- Canonical stream identifier.  Modelled from the spec:
StationStream.get_id (stationstream.py is not under src/); the spec (§4.4)
keys the carry-over snapshot by "a canonical group identifier (derived
from shared identity fields)", i.e. the network, station and instrument
code shared by the group members, read from the first trace (the obspy id
string "NET.STA.INST", componentwise).  An empty stream has no first
trace (Python would raise); the engine only builds nonempty streams. -/
def get_id (st : StationStream) : String × String × String :=
  match st.traces with
  | [] => ("", "", "")
  | t :: _ => tripleOf t

/-- Tag stamping of `gather_stream_parameters`: write the stream tag (the
empty string when the attribute is absent) into every member trace's
`stats.tag` slot. -/
def stamp_tag (st : StationStream) : StationStream :=
  { st with traces := st.traces.map (fun t => { t with tag := st.tag.getD "" }) }

/-- Helper `gather_stream_parameters` (streamcollection.py lines 616-649):
collect every nonempty stream parameter store into a dict keyed by stream
id (later streams overwrite earlier entries on an id collision, as Python
dict assignment does) and stamp each stream's tag onto its traces.  The
Python function returns the dict and mutates the streams in place; the
embedding returns both. -/
def gather_stream_parameters (streams : List StationStream) :
    List ((String × String × String) × List (String × String)) ×
      List StationStream :=
  (streams.foldl
    (fun d st =>
      if st.parameters ≠ [] then dictInsert d (get_id st) st.parameters else d)
    [],
   streams.map stamp_tag)

/-- Reattachment of one stream by `insert_stream_parameters`
(streamcollection.py lines 652-675): a nonempty stream whose id is in the
snapshot gets the stored parameters back, and gets the tag attribute set
from the first trace's stamped tag when that tag is truthy (nonempty). -/
def insert_one
    (sp : List ((String × String × String) × List (String × String)))
    (st : StationStream) : StationStream :=
  match st.traces with
  | [] => st
  | t :: _ =>
    let st1 :=
      match dictFind sp (get_id st) with
      | some p => { st with parameters := p }
      | none => st
    if t.tag ≠ "" then { st1 with tag := some t.tag } else st1

/-- Helper `insert_stream_parameters`: reattach the snapshot to every
stream. -/
def insert_stream_parameters (streams : List StationStream)
    (sp : List ((String × String × String) × List (String × String))) :
    List StationStream :=
  streams.map (insert_one sp)

/-- Stream-level dedup phase `StreamCollection.__handle_duplicates`
(streamcollection.py lines 544-613): snapshot the parameters and stamp the
tags, flatten to traces, run the dedup scan, rebuild one single-trace
stream per surviving trace, and reattach the snapshot. -/
def handle_duplicates (dist : ℚ → ℚ → ℚ → ℚ → ℚ) (tol : ℚ)
    (plp fp : List String) (streams : List StationStream) :
    List StationStream :=
  let gathered := gather_stream_parameters streams
  insert_stream_parameters
    ((dedup_traces dist tol plp fp
        (gathered.2.flatMap (fun st => st.traces))).map
      (fun t => { traces := [t], tag := none, parameters := [] }))
    gathered.1

/-- Stream-level regrouping `StreamCollection.__group_by_net_sta_inst`
(streamcollection.py lines 487-542) with the parameter bookkeeping:
snapshot and stamp, flatten, recluster with the grouping engine, rebuild
the streams and reattach the snapshot. -/
def group_streams (streams : List StationStream) : List StationStream :=
  let gathered := gather_stream_parameters streams
  insert_stream_parameters
    ((group_by_net_sta_inst (gathered.2.flatMap (fun st => st.traces))).map
      (fun g => { traces := g, tag := none, parameters := [] }))
    gathered.1

/-- Dedup+regroup cycle of the StreamCollection constructor
(streamcollection.py lines 95-101): `__handle_duplicates` followed by
`__group_by_net_sta_inst`. -/
def dedup_cycle (dist : ℚ → ℚ → ℚ → ℚ → ℚ) (tol : ℚ) (plp fp : List String)
    (streams : List StationStream) : List StationStream :=
  group_streams (handle_duplicates dist tol plp fp streams)

lemma dictFind_insert_self {κ ν : Type} [DecidableEq κ]
    (d : List (κ × ν)) (k : κ) (v : ν) :
    dictFind (dictInsert d k v) k = some v := by
  induction d with
  | nil => simp [dictInsert, dictFind]
  | cons e rest ih =>
    rcases e with ⟨k1, v1⟩
    by_cases h : k1 = k
    · simp [dictInsert, dictFind, h]
    · simp [dictInsert, dictFind, h, ih]

lemma dictFind_insert_other {κ ν : Type} [DecidableEq κ]
    {d : List (κ × ν)} {k k1 : κ} {v : ν} (h : k1 ≠ k) :
    dictFind (dictInsert d k v) k1 = dictFind d k1 := by
  have h3 : ¬ k = k1 := fun e => h e.symm
  induction d with
  | nil => simp [dictInsert, dictFind, h3]
  | cons e rest ih =>
    rcases e with ⟨k2, v2⟩
    by_cases h2 : k2 = k
    · subst h2
      simp [dictInsert, dictFind, h3]
    · simp [dictInsert, dictFind, h2, ih]

lemma gather_fold_pres :
    ∀ (L : List StationStream)
      (d0 : List ((String × String × String) × List (String × String)))
      (k : String × String × String) (v : List (String × String)),
      (∀ x ∈ L, get_id x = k → x.parameters = v) →
      dictFind d0 k = some v →
      dictFind
        (L.foldl
          (fun d st =>
            if st.parameters ≠ [] then dictInsert d (get_id st) st.parameters
            else d) d0) k = some v := by
  intro L
  induction L with
  | nil => intro d0 k v _ h0; exact h0
  | cons x L ih =>
    intro d0 k v hall h0
    refine ih _ k v (fun y hy => hall y (List.mem_cons_of_mem _ hy)) ?_
    show dictFind
      (if x.parameters ≠ [] then dictInsert d0 (get_id x) x.parameters else d0)
      k = some v
    by_cases hc : x.parameters ≠ []
    · rw [if_pos hc]
      by_cases hk : get_id x = k
      · rw [hk, hall x (List.mem_cons_self _ _) hk]
        exact dictFind_insert_self _ _ _
      · rw [dictFind_insert_other (fun e => hk e.symm)]
        exact h0
    · rw [if_neg hc]
      exact h0

lemma gather_fold_found :
    ∀ (L : List StationStream)
      (d0 : List ((String × String × String) × List (String × String)))
      (k : String × String × String) (v : List (String × String)),
      (∀ x ∈ L, get_id x = k → (x.parameters ≠ [] ∧ x.parameters = v)) →
      (∃ x ∈ L, get_id x = k) →
      dictFind
        (L.foldl
          (fun d st =>
            if st.parameters ≠ [] then dictInsert d (get_id st) st.parameters
            else d) d0) k = some v := by
  intro L
  induction L with
  | nil => intro d0 k v _ hex; rcases hex with ⟨x, hx, _⟩; cases hx
  | cons x L ih =>
    intro d0 k v hall hex
    by_cases hk : get_id x = k
    · rcases hall x (List.mem_cons_self _ _) hk with ⟨hc, hv⟩
      refine gather_fold_pres L _ k v
        (fun y hy hyk => (hall y (List.mem_cons_of_mem _ hy) hyk).2) ?_
      show dictFind
        (if x.parameters ≠ [] then dictInsert d0 (get_id x) x.parameters else d0)
        k = some v
      rw [if_pos hc, hk, hv]
      exact dictFind_insert_self _ _ _
    · rcases hex with ⟨y, hy, hyk⟩
      rcases List.mem_cons.mp hy with rfl | hy1
      · exact absurd hyk hk
      · exact ih _ k v (fun z hz => hall z (List.mem_cons_of_mem _ hz)) ⟨y, hy1, hyk⟩

lemma dedup_step_subset {dist : ℚ → ℚ → ℚ → ℚ → ℚ} {tol : ℚ}
    {plp fp : List String} {kept : List Trace} {t : Trace} :
    ∀ x ∈ dedup_step dist tol plp fp kept t, x ∈ kept ∨ x = t := by
  intro x hx
  rcases hfind : kept.find?
      (fun tr_pref => are_duplicates dist tol t tr_pref) with _ | p0
  · rw [dedup_step_eq_none hfind] at hx
    rcases List.mem_append.mp hx with h1 | h1
    · exact Or.inl h1
    · exact Or.inr (List.mem_singleton.mp h1)
  · by_cases hwin : choose_preferred t p0 plp fp = some t
    · rw [dedup_step_eq_win hfind hwin] at hx
      rcases List.mem_append.mp hx with h1 | h1
      · exact Or.inl (List.erase_subset p0 kept h1)
      · exact Or.inr (List.mem_singleton.mp h1)
    · rw [dedup_step_eq_lose hfind hwin] at hx
      exact Or.inl hx

lemma dedup_go_subset {dist : ℚ → ℚ → ℚ → ℚ → ℚ} {tol : ℚ}
    {plp fp : List String} :
    ∀ (l kept : List Trace) (x : Trace),
      x ∈ l.foldl (dedup_step dist tol plp fp) kept → x ∈ kept ∨ x ∈ l := by
  intro l
  induction l with
  | nil => intro kept x hx; exact Or.inl hx
  | cons t l ih =>
    intro kept x hx
    rcases ih (dedup_step dist tol plp fp kept t) x hx with h1 | h1
    · rcases dedup_step_subset x h1 with h2 | h2
      · exact Or.inl h2
      · exact Or.inr (h2 ▸ List.mem_cons_self _ _)
    · exact Or.inr (List.mem_cons_of_mem _ h1)

lemma dedup_traces_subset {dist : ℚ → ℚ → ℚ → ℚ → ℚ} {tol : ℚ}
    {plp fp : List String} {ts : List Trace} {x : Trace}
    (hx : x ∈ dedup_traces dist tol plp fp ts) : x ∈ ts := by
  rcases dedup_go_subset ts [] x hx with h | h
  · cases h
  · exact h

lemma stamped_flat_origin {streams : List StationStream} {t : Trace}
    (ht : t ∈ (streams.map stamp_tag).flatMap (fun st => st.traces)) :
    ∃ st ∈ streams, ∃ t0 ∈ st.traces, t = { t0 with tag := st.tag.getD "" } := by
  rcases List.mem_flatMap.mp ht with ⟨s1, hs1, hts⟩
  rcases List.mem_map.mp hs1 with ⟨st, hst, rfl⟩
  rcases List.mem_map.mp hts with ⟨t0, ht0, rfl⟩
  exact ⟨st, hst, t0, ht0, rfl⟩

lemma insert_one_compute
    (sp : List ((String × String × String) × List (String × String)))
    (t : Trace) (rest : List Trace) (p : List (String × String))
    (hf : dictFind sp (tripleOf t) = some p) (ht : t.tag ≠ "") :
    insert_one sp { traces := t :: rest, tag := none, parameters := [] } =
      { traces := t :: rest, tag := some t.tag, parameters := p } := by
  have hid : get_id { traces := t :: rest, tag := none, parameters := [] } =
      tripleOf t := rfl
  simp only [insert_one, hid, hf, if_pos ht]

lemma handle_duplicates_ids {dist : ℚ → ℚ → ℚ → ℚ → ℚ} {tol : ℚ}
    {plp fp : List String} {streams : List StationStream}
    (hwf : ∀ st ∈ streams, ∀ t ∈ st.traces, tripleOf t = get_id st)
    (hids : ∀ s1 ∈ streams, ∀ s2 ∈ streams, get_id s1 = get_id s2 → s1 = s2)
    (htag : ∀ st ∈ streams, st.tag ≠ none ∧ st.tag ≠ some "")
    (hpar : ∀ st ∈ streams, st.parameters ≠ []) :
    ∀ s ∈ handle_duplicates dist tol plp fp streams,
      ∃ st ∈ streams, get_id s = get_id st ∧ s.tag = st.tag ∧
        s.parameters = st.parameters ∧
        ∃ t, s.traces = [t] ∧ tripleOf t = get_id st ∧ some t.tag = st.tag := by
  intro s hs
  simp only [handle_duplicates, gather_stream_parameters,
    insert_stream_parameters] at hs
  rcases List.mem_map.mp hs with ⟨s0, hs0, rfl⟩
  rcases List.mem_map.mp hs0 with ⟨t, htk, rfl⟩
  have htin : t ∈ (streams.map stamp_tag).flatMap (fun st => st.traces) :=
    dedup_traces_subset htk
  rcases stamped_flat_origin htin with ⟨st, hst, t0, ht0, rfl⟩
  rcases htag st hst with ⟨hn, hne⟩
  have hne2 : st.tag.getD "" ≠ "" := by
    rcases h : st.tag with _ | tg
    · exact absurd h hn
    · intro e
      simp only [Option.getD_some] at e
      exact hne (by rw [h, e])
  have hsome : some (st.tag.getD "") = st.tag := by
    rcases h : st.tag with _ | tg
    · exact absurd h hn
    · simp
  have htrip : tripleOf { t0 with tag := st.tag.getD "" } = get_id st :=
    hwf st hst t0 ht0
  have hfound : dictFind
      (streams.foldl
        (fun d st1 =>
          if st1.parameters ≠ [] then dictInsert d (get_id st1) st1.parameters
          else d) [])
      (get_id st) = some st.parameters :=
    gather_fold_found streams [] (get_id st) st.parameters
      (fun x hx he => ⟨hpar x hx, by rw [hids x hx st hst he]⟩)
      ⟨st, hst, rfl⟩
  rw [insert_one_compute _ _ _ st.parameters (by rw [htrip]; exact hfound) hne2]
  exact ⟨st, hst, htrip, hsome, rfl,
    { t0 with tag := st.tag.getD "" }, rfl, htrip, hsome⟩

/-- C1 (amended): tag/parameter round-trip through the dedup+regroup
cycle.  For a collection of well-formed groups (members share the group's
network/station/instrument identity) with pairwise-distinct canonical
identifiers, each carrying a present, nonempty tag and a nonempty
parameter mapping, every group after the cycle whose identifier equals a
pre-cycle group's identifier carries that group's tag and parameter
mapping.  Distinctness of identifiers is necessary: `get_id` ignores the
free-field flag and the location code, so two distinct groups can share an
identifier, and the snapshot dict then keeps only the later group's
parameters (see the counterexample). -/
theorem tag_param_roundtrip (dist : ℚ → ℚ → ℚ → ℚ → ℚ) (tol : ℚ)
    (plp fp : List String) (streams : List StationStream)
    (hwf : ∀ st ∈ streams, ∀ t ∈ st.traces, tripleOf t = get_id st)
    (hids : ∀ s1 ∈ streams, ∀ s2 ∈ streams, get_id s1 = get_id s2 → s1 = s2)
    (htag : ∀ st ∈ streams, st.tag ≠ none ∧ st.tag ≠ some "")
    (hpar : ∀ st ∈ streams, st.parameters ≠ []) :
    ∀ g ∈ dedup_cycle dist tol plp fp streams, ∀ st ∈ streams,
      get_id g = get_id st → g.tag = st.tag ∧ g.parameters = st.parameters := by
  have H2 := @handle_duplicates_ids dist tol plp fp streams hwf hids htag hpar
  intro g hg st hst hgid
  simp only [dedup_cycle, group_streams, gather_stream_parameters,
    insert_stream_parameters] at hg
  rcases List.mem_map.mp hg with ⟨g0, hg0, rfl⟩
  rcases List.mem_map.mp hg0 with ⟨G, hG, rfl⟩
  rcases G with _ | ⟨t1, Grest⟩
  · exact absurd rfl (group_mem_nonempty hG)
  · have ht1G : t1 ∈ t1 :: Grest := List.mem_cons_self _ _
    have ht1 : t1 ∈ ((handle_duplicates dist tol plp fp streams).map
        stamp_tag).flatMap (fun st => st.traces) :=
      ((group_char hG ht1G t1).mp ht1G).1
    rcases stamped_flat_origin ht1 with ⟨s1, hs1, t10, ht10, rfl⟩
    rcases H2 s1 hs1 with ⟨st1, hst1, hgid1, htag1, hpar1, t2, htr2, htrip2, htag2⟩
    have ht10e : t10 = t2 := by
      rw [htr2] at ht10
      exact List.mem_singleton.mp ht10
    subst ht10e
    have hs1ne : s1.tag ≠ none ∧ s1.tag ≠ some "" := by
      rw [htag1]
      exact htag st1 hst1
    have hne2 : s1.tag.getD "" ≠ "" := by
      rcases h : s1.tag with _ | tg
      · exact absurd h hs1ne.1
      · intro e
        simp only [Option.getD_some] at e
        exact hs1ne.2 (by rw [h, e])
    have hsome : some (s1.tag.getD "") = s1.tag := by
      rcases h : s1.tag with _ | tg
      · exact absurd h hs1ne.1
      · simp
    have htrip1 : tripleOf { t10 with tag := s1.tag.getD "" } = get_id st1 :=
      htrip2
    have hfound2 : dictFind
        ((handle_duplicates dist tol plp fp streams).foldl
          (fun d st1 =>
            if st1.parameters ≠ [] then dictInsert d (get_id st1) st1.parameters
            else d) [])
        (get_id st1) = some st1.parameters := by
      refine gather_fold_found _ [] (get_id st1) st1.parameters ?_
        ⟨s1, hs1, hgid1⟩
      intro x hx he
      rcases H2 x hx with ⟨stx, hstx, hgx, _, hpx, _⟩
      have hex : stx = st1 :=
        hids stx hstx st1 hst1 (by rw [← hgx, he])
      constructor
      · rw [hpx]
        exact hpar stx hstx
      · rw [hpx, hex]
    rw [insert_one_compute _ _ _ st1.parameters
      (by rw [htrip1]; exact hfound2) hne2] at hgid ⊢
    have hstq : st1 = st := by
      refine hids st1 hst1 st hst ?_
      rw [← hgid]
      exact htrip1.symm
    subst hstq
    constructor
    · show some (({ t10 with tag := s1.tag.getD "" } : Trace).tag) = st1.tag
      rw [← htag1]
      exact hsome
    · rfl

/-- Constant-zero distance table (the detector then never reaches the
distance comparison in these fixtures: tolerance 0 makes 0 < 0 false). -/
def dZero : ℚ → ℚ → ℚ → ℚ → ℚ := fun _ _ _ _ => 0

/-- First fixture group for the C1 counterexample: a free-field trace. -/
def cIdA : StationStream :=
  { traces := [tBase], tag := some "e_s_L", parameters := [("pA", "1")] }

/-- Second fixture group: same network/station/instrument (hence the same
get_id) but non-free-field and a different channel, so dedup keeps both
traces and regrouping yields two groups sharing one identifier. -/
def cIdB : StationStream :=
  { traces := [{ tBase with channel := "HNE", structure_type := "building" }],
    tag := some "e_s_L", parameters := [("pB", "2")] }

/-- Counterexample for C1 as stated: the two groups share a canonical
identifier (get_id ignores the free-field flag), so the snapshot dict
keeps only the later group's parameters; after the cycle the group built
from cIdA's own trace has an unchanged identifier but carries cIdB's
parameter mapping instead of cIdA's. -/
theorem tag_param_roundtrip_cex :
    get_id cIdA = get_id cIdB ∧ cIdA.parameters ≠ cIdB.parameters ∧
    (dedup_cycle dZero 0 ["V0"] ["cosmos"] [cIdA, cIdB]).getD 0 default ∈
      dedup_cycle dZero 0 ["V0"] ["cosmos"] [cIdA, cIdB] ∧
    ((dedup_cycle dZero 0 ["V0"] ["cosmos"] [cIdA, cIdB]).getD 0
        default).traces = [{ tBase with tag := "e_s_L" }] ∧
    get_id ((dedup_cycle dZero 0 ["V0"] ["cosmos"] [cIdA, cIdB]).getD 0
        default) = get_id cIdA ∧
    ((dedup_cycle dZero 0 ["V0"] ["cosmos"] [cIdA, cIdB]).getD 0
        default).parameters ≠ cIdA.parameters := by decide

/-- First witness group for the amended C1 (station "A"). -/
def wIdA : StationStream :=
  { traces := [tBase], tag := some "e_s_L", parameters := [("k", "1")] }

/-- Second witness group (station "B": distinct identifier). -/
def wIdB : StationStream :=
  { traces := [{ tBase with station := "B" }], tag := some "e_s_L",
    parameters := [("k", "2")] }

/-- Witness for the amended C1 at a concrete input with distinct
identifiers: the group with wIdA's identifier keeps wIdA's tag and
parameters through the cycle. -/
theorem tag_param_roundtrip_witness :
    ((dedup_cycle dZero 0 ["V0"] ["cosmos"] [wIdA, wIdB]).getD 0
        default).tag = wIdA.tag ∧
    ((dedup_cycle dZero 0 ["V0"] ["cosmos"] [wIdA, wIdB]).getD 0
        default).parameters = wIdA.parameters :=
  tag_param_roundtrip dZero 0 ["V0"] ["cosmos"] [wIdA, wIdB]
    (by decide) (by decide) (by decide) (by decide)
    ((dedup_cycle dZero 0 ["V0"] ["cosmos"] [wIdA, wIdB]).getD 0 default)
    (by decide) wIdA (by decide) (by decide)
